import Mathlib

/-!
Peer table and scheduler of the ESP-NOW demo node (`src/main.cpp`).

A shallow embedding of the sketch: the global array `peerAddresses[MAX_PEERS][6]`, the
counter `peerCount`, the functions `addPeerIfNew`, `OnDataSent` and `OnDataRecv`, and
`setup` and `loop` with the global `sentData` and the statics of `loop`.

Conventions of the embedding.

* A byte is a `Fin 256`; a MAC address is six bytes.
* The array `peerAddresses` is a `List Mac` holding all its slots (the slots at
  index `peerCount` and above are stale storage).  Every array access is
  bounds-checked: a function returns `none` exactly when the C code would read or
  write a slot outside the array.
* `peerCount` is a C `int`, here an `Int`.
* The calls made to the ESP-NOW driver and to the GPIO are appended to
  `State.trace`; the driver's own peer list is `State.registered`.  Whether
  `esp_now_add_peer` succeeds is decided by the driver, so it is an input
  (`addOk`) of `addPeerIfNew`.
* `Serial` output is not modelled.
* `millis()`, `random(20, 30)`, `esp_random()` and the answer of `esp_now_init()` are
  inputs.  An `unsigned long` is 32 bits wide; a `float` is kept as its four bytes.
* The layout of `MessageData` is the one of the ESP32 ABI (76 bytes).
* The capacity `MAX_PEERS` is a `#define`; the functions take it as the
  parameter `maxPeers` and the source's value is `MAX_PEERS = 20`.
-/

namespace EspNowDemo

/-! ## Data model -/

abbrev Byte := Fin 256

/-- A link-layer address: `uint8_t[6]`. -/
structure Mac where
  b0 : Byte
  b1 : Byte
  b2 : Byte
  b3 : Byte
  b4 : Byte
  b5 : Byte
deriving DecidableEq, Repr

/-- The six bytes of an address, in memory order. -/
def Mac.toList (m : Mac) : List Byte := [m.b0, m.b1, m.b2, m.b3, m.b4, m.b5]

/-- The global `uint8_t broadcastAddress[] = {0xFF, 0xFF, 0xFF, 0xFF, 0xFF, 0xFF};` -/
def broadcastAddress : Mac := ⟨0xFF, 0xFF, 0xFF, 0xFF, 0xFF, 0xFF⟩

/-- The constant `#define MAX_PEERS 20` -/
def MAX_PEERS : Nat := 20

/-- The constant `const int LED_PIN = 2;` -/
def LED_PIN : Nat := 2

/-- The enum `esp_now_send_status_t`. -/
inductive esp_now_send_status_t where
  | ESP_NOW_SEND_SUCCESS
  | ESP_NOW_SEND_FAIL
deriving DecidableEq, Repr

open esp_now_send_status_t

/-- The record `MessageData`.  `temperature` is kept as the four raw bytes of the
`float`; `ledState` is the `bool` read back from its byte. -/
structure MessageData where
  messageType : Byte
  nodeName : List Byte
  temperature : List Byte
  ledState : Bool
  message : List Byte
deriving DecidableEq, Repr

/-- Calls that leave the program: ESP-NOW driver calls and GPIO writes. -/
inductive Event where
  | esp_now_add_peer (peer_addr : Mac) (ok : Bool)
  | esp_now_del_peer (peer_addr : Mac)
  | esp_now_send (peer_addr : Mac) (data : MessageData)
  | digitalWrite (pin : Nat) (val : Bool)
deriving DecidableEq, Repr

/-- The globals `peerAddresses`, `peerCount`, together with the driver's peer list
and the calls issued so far (oldest first). -/
structure State where
  peerAddresses : List Mac
  peerCount : Int
  registered : List Mac
  trace : List Event
deriving DecidableEq, Repr

/-- The all-zero address: the content of a global array slot at start-up. -/
def zeroMac : Mac := ⟨0, 0, 0, 0, 0, 0⟩

/-- State at process start: `peerAddresses` zero-initialised with `maxPeers` slots,
`peerCount = 0`, nothing issued yet; `registered` is the driver's peer list at that
time. -/
def initState (maxPeers : Nat) (registered : List Mac) : State :=
  { peerAddresses := List.replicate maxPeers zeroMac
    peerCount := 0
    registered := registered
    trace := [] }

/-- The peer table proper: the first `peerCount` slots of the array. -/
def State.table (s : State) : List Mac := s.peerAddresses.take s.peerCount.toNat

/-! ## Library and driver calls -/

/-- The library call `memcmp(a, b, n)`: zero when the first `n` bytes agree, otherwise the difference
of the first pair of bytes that differ. -/
def memcmp : List Byte → List Byte → Nat → Int
  | _, _, 0 => 0
  | a :: as, b :: bs, n + 1 =>
    if a = b then memcmp as bs n else (a.val : Int) - (b.val : Int)
  | _, _, _ + 1 => 0

/-- The driver call `esp_now_add_peer(&peerInfo)` with the driver's answer `ok` (`ESP_OK` or not):
the call is recorded and, on success, the address joins the driver's peer list. -/
def esp_now_add_peer (peer_addr : Mac) (ok : Bool) (s : State) : State :=
  { s with
    registered := if ok then peer_addr :: s.registered else s.registered
    trace := s.trace ++ [Event.esp_now_add_peer peer_addr ok] }

/-- The driver call `esp_now_del_peer(mac_addr)`: the call is recorded and the address leaves the
driver's peer list. -/
def esp_now_del_peer (peer_addr : Mac) (s : State) : State :=
  { s with
    registered := s.registered.filter (fun m => decide (m ≠ peer_addr))
    trace := s.trace ++ [Event.esp_now_del_peer peer_addr] }

/-- The GPIO call `digitalWrite(pin, val)`: the call is recorded. -/
def digitalWrite (pin : Nat) (val : Bool) (s : State) : State :=
  { s with trace := s.trace ++ [Event.digitalWrite pin val] }

/-- The copy `memcpy(peerAddresses[i], src, 6)` for an `int` index `i`: `none` when the slot
is outside the array. -/
def writeSlot (arr : List Mac) (i : Int) (src : Mac) : Option (List Mac) :=
  if 0 ≤ i ∧ i.toNat < arr.length then some (arr.set i.toNat src) else none

/-! ## `addPeerIfNew` -/

/-- The membership scan of `addPeerIfNew` (lines 32-36), `i` being the loop variable
and `k` the number of iterations left, `peerCount - i`:
`for (; i < peerCount; i++) if (memcmp(peerAddresses[i], mac_addr, 6) == 0) return false;`
The result is `some true` when the scan hit `return false`, `some false` when the
loop ran to its end. -/
def addPeerIfNew.scan (arr : List Mac) (mac_addr : Mac) : Nat → Nat → Option Bool
  | _, 0 => some false
  | i, k + 1 =>
    match arr[i]? with
    | none => none
    | some p =>
      if memcmp p.toList mac_addr.toList 6 = 0 then some true
      else addPeerIfNew.scan arr mac_addr (i + 1) k

/-- The function `bool addPeerIfNew(const uint8_t *mac_addr)`; `addOk` says whether
`esp_now_add_peer` returns `ESP_OK` should it be called. -/
def addPeerIfNew (maxPeers : Nat) (mac_addr : Mac) (addOk : Bool) (s : State) :
    Option (Bool × State) :=
  match addPeerIfNew.scan s.peerAddresses mac_addr 0 s.peerCount.toNat with
  | none => none
  | some true => some (false, s)
  | some false =>
    if s.peerCount < (maxPeers : Int) then
      match writeSlot s.peerAddresses s.peerCount mac_addr with
      | none => none
      | some arr =>
        let s1 := esp_now_add_peer mac_addr addOk { s with peerAddresses := arr }
        if addOk then some (true, { s1 with peerCount := s1.peerCount + 1 })
        else some (false, s1)
    else some (false, s)

/-! ## `OnDataSent` -/

/-- The shift loop of `OnDataSent` (lines 68-70), `j` being the loop variable and `k`
the number of iterations left, `peerCount - 1 - j`:
`for (; j < peerCount - 1; j++) memcpy(peerAddresses[j], peerAddresses[j+1], 6);` -/
def OnDataSent.shift : List Mac → Nat → Nat → Option (List Mac)
  | arr, _, 0 => some arr
  | arr, j, k + 1 =>
    match arr[j + 1]? with
    | none => none
    | some p =>
      match writeSlot arr (j : Int) p with
      | none => none
      | some arr1 => OnDataSent.shift arr1 (j + 1) k

/-- The search loop of `OnDataSent` (lines 64-74), `i` being the loop variable and
`k` the number of iterations left, `peerCount - i`.  On the first match the peer is
unregistered, the tail is shifted down, `peerCount` is decremented and the loop is
left (`break`). -/
def OnDataSent.loop (mac_addr : Mac) : Nat → Nat → State → Option State
  | _, 0, s => some s
  | i, k + 1, s =>
    match s.peerAddresses[i]? with
    | none => none
    | some p =>
      if memcmp p.toList mac_addr.toList 6 = 0 then
        let s1 := esp_now_del_peer mac_addr s
        match OnDataSent.shift s1.peerAddresses i (s1.peerCount - 1 - (i : Int)).toNat with
        | none => none
        | some arr => some { s1 with peerAddresses := arr, peerCount := s1.peerCount - 1 }
      else OnDataSent.loop mac_addr (i + 1) k s

/-- The callback `void OnDataSent(const uint8_t *mac_addr, esp_now_send_status_t status)` -/
def OnDataSent (mac_addr : Mac) (status : esp_now_send_status_t) (s : State) :
    Option State :=
  if status ≠ ESP_NOW_SEND_SUCCESS then
    OnDataSent.loop mac_addr 0 s.peerCount.toNat s
  else some s

/-! ## `OnDataRecv` -/

/-- The size `sizeof(MessageData)` with the ESP32 ABI: `messageType` at offset 0, `nodeName` at
1, three bytes of padding, `temperature` at 36, `ledState` at 40, `message` at 41 and
three bytes of tail padding. -/
def sizeofMessageData : Nat := 76

/-- The record held by the `sizeofMessageData` bytes found at a pointer, `mem i` being
the byte at offset `i`: what `memcpy(&receivedData, incomingData, sizeof(MessageData))`
leaves in `receivedData`. -/
def memcpyMessageData (mem : Nat → Byte) : MessageData :=
  { messageType := mem 0
    nodeName := (List.range 32).map (fun i => mem (1 + i))
    temperature := (List.range 4).map (fun i => mem (36 + i))
    ledState := decide (mem 40 ≠ 0)
    message := (List.range 32).map (fun i => mem (41 + i)) }

set_option linter.unusedVariables false in
/-- The callback `void OnDataRecv(const uint8_t *mac_addr, const uint8_t *incomingData, int len)`.
`incomingData i` is the byte at offset `i` from the pointer; the frame is the first
`len` of them and what follows is whatever memory holds there.  `addOk` is the
driver's answer should `addPeerIfNew` call `esp_now_add_peer`. -/
def OnDataRecv (maxPeers : Nat) (mac_addr : Mac) (incomingData : Nat → Byte) (len : Int)
    (addOk : Bool) (s : State) : Option State :=
  let receivedData := memcpyMessageData incomingData
  match addPeerIfNew maxPeers mac_addr addOk s with
  | none => none
  | some (_, s1) =>
    if receivedData.messageType = 0 then some s1
    else some (digitalWrite LED_PIN receivedData.ledState s1)

/-! ## Sequences of calls -/

/-- One call into the peer-table code, with what the environment decides for it. -/
inductive Call where
  | addPeerIfNew (mac_addr : Mac) (addOk : Bool)
  | OnDataSent (mac_addr : Mac) (status : esp_now_send_status_t)
deriving DecidableEq, Repr

/-- Perform one call. -/
def step (maxPeers : Nat) (c : Call) (s : State) : Option State :=
  match c with
  | Call.addPeerIfNew mac_addr addOk =>
    match addPeerIfNew maxPeers mac_addr addOk s with
    | none => none
    | some (_, s1) => some s1
  | Call.OnDataSent mac_addr status => OnDataSent mac_addr status s

/-- Perform a sequence of calls, first call first. -/
def run (maxPeers : Nat) : List Call → State → Option State
  | [], s => some s
  | c :: cs, s =>
    match step maxPeers c s with
    | none => none
    | some s1 => run maxPeers cs s1

/-! ## State predicates -/

/-- The array has its `maxPeers` slots and `0 ≤ peerCount ≤ maxPeers`. -/
def InBounds (maxPeers : Nat) (s : State) : Prop :=
  s.peerAddresses.length = maxPeers ∧ 0 ≤ s.peerCount ∧ s.peerCount ≤ (maxPeers : Int)

instance (maxPeers : Nat) (s : State) : Decidable (InBounds maxPeers s) :=
  inferInstanceAs (Decidable (_ ∧ _ ∧ _))

/-- The table invariant: in bounds, and the first `peerCount` slots pairwise distinct. -/
def WF (maxPeers : Nat) (s : State) : Prop :=
  InBounds maxPeers s ∧ s.table.Nodup

instance (maxPeers : Nat) (s : State) : Decidable (WF maxPeers s) :=
  inferInstanceAs (Decidable (_ ∧ _))

/-- A state whose table is `tbl`, the remaining slots being zero. -/
def stateOf (maxPeers : Nat) (tbl : List Mac) : State :=
  { peerAddresses := tbl ++ List.replicate (maxPeers - tbl.length) zeroMac
    peerCount := (tbl.length : Int)
    registered := tbl
    trace := [] }

/-- Every address of the table is in the driver's peer list. -/
def TableRegistered (s : State) : Prop := ∀ a ∈ s.table, a ∈ s.registered

/-! ## `setup` and `loop` -/

/-- The driver call `esp_now_send(peer_addr, (uint8_t *)&data, sizeof(MessageData))`:
the call is recorded with the record whose bytes are handed over.  The outcome comes
back later through `OnDataSent`. -/
def esp_now_send (peer_addr : Mac) (data : MessageData) (s : State) : State :=
  { s with trace := s.trace ++ [Event.esp_now_send peer_addr data] }

/-- The library call `snprintf(buf, size, ...)` whose formatted output is `text`: at
most `size - 1` bytes of it are stored, followed by a zero byte; the rest of `buf` is
left as it was. -/
def snprintf (buf : List Byte) (size : Nat) (text : List Byte) : List Byte :=
  if size = 0 then buf
  else (text.take (size - 1) ++ [0]) ++ buf.drop ((text.take (size - 1)).length + 1)

/-- The characters `%d` prints for an `int`. -/
def fmtDecimal (n : Int) : List Byte :=
  (if n < 0 then [0x2D] else []) ++
    (Nat.toDigits 10 n.natAbs).map (fun c => (Fin.ofNat c.toNat : Byte))

/-- One upper-case hexadecimal digit, as a character. -/
def hexDigit (d : Nat) : Byte :=
  if d % 16 < 10 then Fin.ofNat (0x30 + d % 16) else Fin.ofNat (0x41 + (d % 16 - 10))

/-- The characters `%04X` prints for a value below `0x10000`. -/
def fmtHex4 (v : Nat) : List Byte :=
  [hexDigit (v / 4096), hexDigit (v / 256), hexDigit (v / 16), hexDigit v]

/-- The function `void generateNodeName(char* nodeName)`:
`snprintf(nodeName, 32, "Node-%04X", esp_random() & 0xFFFF)`, the value of
`esp_random()` being the input `rnd`. -/
def generateNodeName (nodeName : List Byte) (rnd : Nat) : List Byte :=
  snprintf nodeName 32 ([0x4E, 0x6F, 0x64, 0x65, 0x2D] ++ fmtHex4 (rnd % 65536))

/-- The whole program state: the peer-table state, the global `sentData`, the statics
of `loop()` (`lastDiscovery`, `lastData`, `counter`) and whether the two callbacks have
been registered with the driver.  `unsigned long` is 32 bits wide on the ESP32 and
`counter` is a 32-bit `int`. -/
structure Node where
  st : State
  sentData : MessageData
  lastDiscovery : Nat
  lastData : Nat
  counter : Int
  callbacksRegistered : Bool
deriving DecidableEq, Repr

/-- The program state when `setup()` is entered: all globals and statics zero. -/
def bootNode (maxPeers : Nat) : Node :=
  { st := initState maxPeers []
    sentData :=
      { messageType := 0
        nodeName := List.replicate 32 0
        temperature := List.replicate 4 0
        ledState := false
        message := List.replicate 32 0 }
    lastDiscovery := 0
    lastData := 0
    counter := 0
    callbacksRegistered := false }

/-- The function `void setup()`.  `initOk` says whether `esp_now_init()` returns
`ESP_OK`, `bcastOk` whether the registration of the broadcast peer does, `rnd` is the
value of `esp_random()`.  The serial port, the pin mode and the Wi-Fi mode and channel are
not modelled. -/
def setup (initOk bcastOk : Bool) (rnd : Nat) (n : Node) : Node :=
  if initOk ≠ true then n
  else
    { n with
      callbacksRegistered := true
      st := esp_now_add_peer broadcastAddress bcastOk n.st
      sentData := { n.sentData with nodeName := generateNodeName n.sentData.nodeName rnd } }

/-- The value a 32-bit `int` holds for the mathematical integer `x`: two's complement
wrap-around, so that `INT_MAX + 1` is `INT_MIN`, which is what `counter++` leaves on the
target. -/
def wrapInt32 (x : Int) : Int := (x + 2147483648) % 4294967296 - 2147483648

/-- Subtraction of two `unsigned long` values: the difference modulo `2 ^ 32`. -/
def usub32 (a b : Nat) : Nat := (a % 4294967296 + (4294967296 - b % 4294967296)) % 4294967296

/-- The send loop of `loop()` (lines 154-156), `i` being the loop variable and `k` the
number of iterations left, `peerCount - i`:
`for (; i < peerCount; i++) esp_now_send(peerAddresses[i], (uint8_t *)&sentData, sizeof(MessageData));` -/
def loop.sendAll (data : MessageData) : Nat → Nat → State → Option State
  | _, 0, s => some s
  | i, k + 1, s =>
    match s.peerAddresses[i]? with
    | none => none
    | some p => loop.sendAll data (i + 1) k (esp_now_send p data s)

/-- The function `void loop()`, one pass.  `currentTime` is the value of `millis()` and
`temperature` the four bytes of the `float` made from `random(20, 30)`. -/
def loop (currentTime : Nat) (temperature : List Byte) (n : Node) : Option Node :=
  let n1 : Node :=
    if usub32 currentTime n.lastDiscovery > 5000 then
      let sentData := { n.sentData with messageType := 0 }
      { n with
        sentData := sentData
        st := esp_now_send broadcastAddress sentData n.st
        lastDiscovery := currentTime }
    else n
  if usub32 currentTime n1.lastData > 2000 then
    let sentData : MessageData :=
      { n1.sentData with
        messageType := 1
        temperature := temperature
        ledState := !n1.sentData.ledState
        message := snprintf n1.sentData.message 32
          ([0x48, 0x65, 0x6C, 0x6C, 0x6F, 0x20, 0x23] ++ fmtDecimal n1.counter) }
    match loop.sendAll sentData 0 n1.st.peerCount.toNat n1.st with
    | none => none
    | some st =>
      some { n1 with
        sentData := sentData
        counter := wrapInt32 (n1.counter + 1)
        st := st
        lastData := currentTime }
  else some n1

/-- The message `loop()` broadcasts when the discovery check fires: `sentData` with
`messageType = 0`. -/
def discoveryMessage (n : Node) : MessageData :=
  { n.sentData with messageType := 0 }

/-- The message `loop()` sends to the peers when the data check fires: `sentData` with
`messageType = 1`, the new temperature, the toggled `ledState` and the text
`Hello #<counter>`. -/
def dataMessage (temperature : List Byte) (n : Node) : MessageData :=
  { n.sentData with
    messageType := 1
    temperature := temperature
    ledState := !n.sentData.ledState
    message := snprintf n.sentData.message 32
      ([0x48, 0x65, 0x6C, 0x6C, 0x6F, 0x20, 0x23] ++ fmtDecimal n.counter) }

/-! ## The byte image of a message -/

/-- The `sizeof(MessageData)` bytes of a record as they lie in memory with the ESP32
ABI, the byte at offset `i`: what `(uint8_t *)&sentData` points to.  The padding bytes
(offsets 33 to 35 and 73 to 75) hold whatever `pad` says. -/
def MessageData.bytes (m : MessageData) (pad : Nat → Byte) : Nat → Byte := fun i =>
  if i = 0 then m.messageType
  else if i < 33 then m.nodeName.getD (i - 1) 0
  else if i < 36 then pad i
  else if i < 40 then m.temperature.getD (i - 36) 0
  else if i = 40 then (if m.ledState then 1 else 0)
  else if i < 73 then m.message.getD (i - 41) 0
  else pad i

/-- A record is well formed when its three arrays have their declared sizes:
`char nodeName[32]`, a four-byte `float`, `char message[32]`. -/
def MessageData.WellFormed (m : MessageData) : Prop :=
  m.nodeName.length = 32 ∧ m.temperature.length = 4 ∧ m.message.length = 32

instance (m : MessageData) : Decidable m.WellFormed :=
  inferInstanceAs (Decidable (_ ∧ _ ∧ _))

/-! ## Sample data -/

/-- Sample address `A`. -/
def addrA : Mac := ⟨0x24, 0x6F, 0x28, 0x00, 0x00, 0x0A⟩

/-- Sample address `B`. -/
def addrB : Mac := ⟨0x24, 0x6F, 0x28, 0x00, 0x00, 0x0B⟩

/-- Sample address `C`. -/
def addrC : Mac := ⟨0x24, 0x6F, 0x28, 0x00, 0x00, 0x0C⟩

/-- A family of pairwise distinct sample addresses (for `n < 256`). -/
def addrN (n : Nat) : Mac := ⟨0x30, 0xAE, 0xA4, 0x00, 0x00, Fin.ofNat n⟩

/-- A full table: `MAX_PEERS` pairwise distinct addresses. -/
def fullState : State := stateOf MAX_PEERS ((List.range MAX_PEERS).map addrN)

/-- Memory holding a frame of 41 bytes with `messageType = 1` (byte 0) and
`ledState = true` (byte 40), every other byte zero. -/
def shortFrame : Nat → Byte := fun i => if i = 0 then 1 else if i = 40 then 1 else 0

/-- Memory holding a full-size frame with `messageType = 1` (byte 0) and
`ledState = true` (byte 40), every other byte zero. -/
def dataFrame : Nat → Byte := fun i => if i = 0 then 1 else if i = 40 then 1 else 0

/-- Memory holding a full-size frame with `messageType = 2` (byte 0) and
`ledState = true` (byte 40), every other byte zero. -/
def unknownTypeFrame : Nat → Byte := fun i => if i = 0 then 2 else if i = 40 then 1 else 0

/-- Memory holding a full-size frame with `messageType = 1` (byte 0) and
`ledState = false` (byte 40), every byte but the first zero. -/
def dataFrameLedOff : Nat → Byte := fun i => if i = 0 then 1 else 0

/-- Memory holding a full-size frame with `messageType = 2` (byte 0) and
`ledState = false` (byte 40), every byte but the first zero. -/
def unknownTypeLedOff : Nat → Byte := fun i => if i = 0 then 2 else 0

/-- Sample value for the station address of the node itself. -/
def selfAddr : Mac := ⟨0x24, 0x6F, 0x28, 0x00, 0x00, 0x01⟩

/-- The four bytes of the `float` 20.0 (little endian). -/
def temp20 : List Byte := [0x00, 0x00, 0xA0, 0x41]

/-- A node after a successful `setup()` whose table is `tbl`, with its timers as given. -/
def nodeOf (tbl : List Mac) (lastDiscovery lastData : Nat) : Node :=
  { setup true true 0x1234 (bootNode MAX_PEERS) with
    st := stateOf MAX_PEERS tbl
    lastDiscovery := lastDiscovery
    lastData := lastData }

/-- A record whose two text fields are filled to the last byte, with no zero byte. -/
def fullMessage : MessageData :=
  { messageType := 1
    nodeName := List.replicate 32 0x41
    temperature := temp20
    ledState := true
    message := List.replicate 32 0x7A }


/-! ## Lemmas on the loops -/

theorem memcmp_eq_zero_iff_list : ∀ (n : Nat) (xs ys : List Byte),
    xs.length = n → ys.length = n → (memcmp xs ys n = 0 ↔ xs = ys)
  | 0, xs, ys, hx, hy => by
    have hx0 : xs = [] := List.length_eq_zero.mp hx
    have hy0 : ys = [] := List.length_eq_zero.mp hy
    simp [hx0, hy0, memcmp]
  | n + 1, [], _, hx, _ => by simp at hx
  | n + 1, _ :: _, [], _, hy => by simp at hy
  | n + 1, x :: xs, y :: ys, hx, hy => by
    have ih := memcmp_eq_zero_iff_list n xs ys (by simpa using hx) (by simpa using hy)
    by_cases hxy : x = y
    · simp [memcmp, hxy, ih]
    · have hv : (x.val : Int) - (y.val : Int) ≠ 0 := by
        intro h
        apply hxy
        apply Fin.ext
        omega
      simp [memcmp, hxy, hv]

theorem Mac.toList_inj {a b : Mac} (h : a.toList = b.toList) : a = b := by
  cases a; cases b
  simp [Mac.toList] at h
  simp [h]

theorem memcmp_mac (a b : Mac) : memcmp a.toList b.toList 6 = 0 ↔ a = b := by
  rw [memcmp_eq_zero_iff_list 6 a.toList b.toList rfl rfl]
  exact ⟨Mac.toList_inj, fun h => by rw [h]⟩

theorem scan_eq (arr : List Mac) (mac : Mac) : ∀ (k i : Nat), i + k ≤ arr.length →
    addPeerIfNew.scan arr mac i k = some (decide (mac ∈ (arr.drop i).take k))
  | 0, i, _ => by simp [addPeerIfNew.scan]
  | k + 1, i, h => by
    have hi : i < arr.length := by omega
    have hd : arr.drop i = arr[i] :: arr.drop (i + 1) := List.drop_eq_getElem_cons hi
    have ih := scan_eq arr mac k (i + 1) (by omega)
    rw [addPeerIfNew.scan, List.getElem?_eq_getElem hi, hd, List.take_succ_cons]
    simp only [memcmp_mac]
    by_cases hp : arr[i] = mac
    · simp [hp]
    · have hp2 : ¬ mac = arr[i] := fun h => hp h.symm
      simp [hp, hp2, ih]

theorem scan_table (s : State) (mac : Mac) (h : s.peerCount.toNat ≤ s.peerAddresses.length) :
    addPeerIfNew.scan s.peerAddresses mac 0 s.peerCount.toNat = some (decide (mac ∈ s.table)) := by
  have := scan_eq s.peerAddresses mac s.peerCount.toNat 0 (by omega)
  simpa [State.table] using this


theorem writeSlot_nat (arr : List Mac) (j : Nat) (p : Mac) (h : j < arr.length) :
    writeSlot arr (j : Int) p = some (arr.set j p) := by
  simp [writeSlot, h]

theorem shift_eq : ∀ (k : Nat) (arr : List Mac) (j : Nat), j + k + 1 ≤ arr.length →
    ∃ arr1, OnDataSent.shift arr j k = some arr1 ∧ arr1.length = arr.length ∧
      ∀ n, arr1[n]? = if j ≤ n ∧ n < j + k then arr[n + 1]? else arr[n]?
  | 0, arr, j, _ => ⟨arr, by simp [OnDataSent.shift], rfl, fun n => by
      have hn : ¬ (j ≤ n ∧ n < j + 0) := by omega
      rw [if_neg hn]⟩
  | k + 1, arr, j, h => by
    have hj1 : j + 1 < arr.length := by omega
    have hj : j < arr.length := by omega
    obtain ⟨arr1, h1, h2, h3⟩ := shift_eq k (arr.set j arr[j + 1]) (j + 1) (by simp; omega)
    refine ⟨arr1, ?_, by simpa using h2, ?_⟩
    · rw [OnDataSent.shift, List.getElem?_eq_getElem hj1]
      simp only [writeSlot_nat arr j _ hj]
      exact h1
    · intro n
      rw [h3 n]
      by_cases c1 : j + 1 ≤ n ∧ n < j + 1 + k
      · have c2 : j ≤ n ∧ n < j + (k + 1) := by omega
        rw [if_pos c1, if_pos c2, List.getElem?_set_ne (by omega)]
      · rw [if_neg c1]
        by_cases c3 : n = j
        · subst c3
          have c2 : n ≤ n ∧ n < n + (k + 1) := by omega
          rw [if_pos c2, List.getElem?_set_self hj, List.getElem?_eq_getElem hj1]
        · have c2 : ¬ (j ≤ n ∧ n < j + (k + 1)) := by omega
          rw [if_neg c2, List.getElem?_set_ne (by omega)]

theorem shift_take (k : Nat) (arr arr1 : List Mac) (j : Nat) (h : j + k + 1 ≤ arr.length)
    (hget : ∀ n, arr1[n]? = if j ≤ n ∧ n < j + k then arr[n + 1]? else arr[n]?) :
    arr1.take (j + k) = arr.take j ++ (arr.drop (j + 1)).take k := by
  have hl : (List.take j arr).length = j := by rw [List.length_take]; omega
  apply List.ext_getElem?
  intro n
  rw [List.getElem?_take, List.getElem?_append, hl, hget n]
  by_cases c1 : n < j
  · have c2 : ¬ (j ≤ n ∧ n < j + k) := by omega
    have c3 : n < j + k := by omega
    rw [if_pos c3, if_neg c2, if_pos c1, List.getElem?_take, if_pos c1]
  · rw [if_neg c1, List.getElem?_take]
    by_cases c5 : n < j + k
    · have c2 : j ≤ n ∧ n < j + k := by omega
      have c7 : n - j < k := by omega
      have c8 : j + 1 + (n - j) = n + 1 := by omega
      rw [if_pos c5, if_pos c2, if_pos c7, List.getElem?_drop, c8]
    · have c7 : ¬ n - j < k := by omega
      rw [if_neg c5, if_neg c7]


theorem loop_eq (mac : Mac) (s : State) : ∀ (k i : Nat),
    (i : Int) + (k : Int) = s.peerCount → i + k ≤ s.peerAddresses.length →
    ∃ s1, OnDataSent.loop mac i k s = some s1 ∧
      s1.peerAddresses.length = s.peerAddresses.length ∧
      s1.table = s.peerAddresses.take i ++ ((s.peerAddresses.drop i).take k).erase mac ∧
      (mac ∈ (s.peerAddresses.drop i).take k →
        s1.peerCount = s.peerCount - 1 ∧
        s1.registered = s.registered.filter (fun m => decide (m ≠ mac)) ∧
        s1.trace = s.trace ++ [Event.esp_now_del_peer mac]) ∧
      (mac ∉ (s.peerAddresses.drop i).take k → s1 = s)
  | 0, i, hpc, _ => by
    have ht : s.peerCount.toNat = i := by omega
    exact ⟨s, by simp [OnDataSent.loop], rfl, by simp [State.table, ht], by simp, fun _ => rfl⟩
  | k + 1, i, hpc, hlen => by
    have hi : i < s.peerAddresses.length := by omega
    have hd : s.peerAddresses.drop i = s.peerAddresses[i] :: s.peerAddresses.drop (i + 1) :=
      List.drop_eq_getElem_cons hi
    rw [OnDataSent.loop, List.getElem?_eq_getElem hi, hd, List.take_succ_cons]
    simp only [memcmp_mac]
    by_cases hp : s.peerAddresses[i] = mac
    · rw [if_pos hp]
      have hk : ((esp_now_del_peer mac s).peerCount - 1 - (i : Int)).toNat = k := by
        simp only [esp_now_del_peer]; omega
      obtain ⟨arr1, e1, e2, e3⟩ := shift_eq k s.peerAddresses i (by omega)
      have e4 := shift_take k s.peerAddresses arr1 i (by omega) e3
      have hk2 : (s.peerCount - 1).toNat = i + k := by omega
      have e1' : OnDataSent.shift (esp_now_del_peer mac s).peerAddresses i
          ((esp_now_del_peer mac s).peerCount - 1 - (i : Int)).toNat = some arr1 := by
        rw [hk]; exact e1
      simp only [e1']
      refine ⟨_, rfl, ?_, ?_, ?_, ?_⟩
      · exact e2
      · simp only [State.table, esp_now_del_peer, hk2, e4, hp, List.erase_cons_head]
      · intro _
        simp [esp_now_del_peer]
      · intro hn
        exact absurd (by simp [hp]) hn
    · rw [if_neg hp]
      obtain ⟨s1, f1, f2, f3, f4, f5⟩ := loop_eq mac s k (i + 1) (by push_cast; omega) (by omega)
      have hp2 : ¬ mac = s.peerAddresses[i] := fun h => hp h.symm
      refine ⟨s1, f1, f2, ?_, ?_, ?_⟩
      · have hne : ¬ ((s.peerAddresses[i] == mac) = true) := by simpa using hp
        rw [f3, List.erase_cons_tail hne, List.take_succ, List.getElem?_eq_getElem hi,
          Option.toList, List.append_assoc, List.singleton_append]
      · intro hm
        apply f4
        simpa [hp2] using hm
      · intro hn
        apply f5
        intro hm
        exact hn (by simp [hm])


/-- The callback `OnDataSent` on a failed send: the result always exists, and its table is the old
one with the first occurrence of the address erased. -/
theorem OnDataSent_fail_eq (mac : Mac) (s : State) (h0 : 0 ≤ s.peerCount)
    (hlen : s.peerCount.toNat ≤ s.peerAddresses.length) :
    ∃ s1, OnDataSent mac ESP_NOW_SEND_FAIL s = some s1 ∧
      s1.peerAddresses.length = s.peerAddresses.length ∧
      s1.table = s.table.erase mac ∧
      (mac ∈ s.table →
        s1.peerCount = s.peerCount - 1 ∧
        s1.registered = s.registered.filter (fun m => decide (m ≠ mac)) ∧
        s1.trace = s.trace ++ [Event.esp_now_del_peer mac]) ∧
      (mac ∉ s.table → s1 = s) := by
  obtain ⟨s1, h1, h2, h3, h4, h5⟩ :=
    loop_eq mac s s.peerCount.toNat 0 (by push_cast; omega) (by omega)
  refine ⟨s1, ?_, h2, ?_, ?_, ?_⟩
  · simpa [OnDataSent] using h1
  · simpa [State.table] using h3
  · simpa [State.table] using h4
  · simpa [State.table] using h5

theorem OnDataSent_success_eq (mac : Mac) (s : State) :
    OnDataSent mac ESP_NOW_SEND_SUCCESS s = some s := by
  simp [OnDataSent]

theorem addPeerIfNew_present (maxPeers : Nat) (mac : Mac) (addOk : Bool) (s : State)
    (hlen : s.peerCount.toNat ≤ s.peerAddresses.length) (hm : mac ∈ s.table) :
    addPeerIfNew maxPeers mac addOk s = some (false, s) := by
  simp [addPeerIfNew, scan_table s mac hlen, hm]

theorem addPeerIfNew_full (maxPeers : Nat) (mac : Mac) (addOk : Bool) (s : State)
    (hlen : s.peerCount.toNat ≤ s.peerAddresses.length) (hfull : (maxPeers : Int) ≤ s.peerCount) :
    addPeerIfNew maxPeers mac addOk s = some (false, s) := by
  have hnot : ¬ s.peerCount < (maxPeers : Int) := by omega
  by_cases hm : mac ∈ s.table
  · exact addPeerIfNew_present maxPeers mac addOk s hlen hm
  · simp [addPeerIfNew, scan_table s mac hlen, hm, hnot]

theorem addPeerIfNew_room (maxPeers : Nat) (mac : Mac) (addOk : Bool) (s : State)
    (h0 : 0 ≤ s.peerCount) (hlen : s.peerCount.toNat < s.peerAddresses.length)
    (hroom : s.peerCount < (maxPeers : Int)) (hm : mac ∉ s.table) :
    addPeerIfNew maxPeers mac addOk s =
      some (addOk,
        { peerAddresses := s.peerAddresses.set s.peerCount.toNat mac
          peerCount := if addOk then s.peerCount + 1 else s.peerCount
          registered := if addOk then mac :: s.registered else s.registered
          trace := s.trace ++ [Event.esp_now_add_peer mac addOk] }) := by
  have hw : writeSlot s.peerAddresses s.peerCount mac =
      some (s.peerAddresses.set s.peerCount.toNat mac) := by
    simp [writeSlot, h0, hlen]
  cases addOk <;>
    simp [addPeerIfNew, scan_table s mac (Nat.le_of_lt hlen), hm, hroom, hw, esp_now_add_peer]

theorem table_set_same (arr : List Mac) (n : Nat) (mac : Mac) :
    (arr.set n mac).take n = arr.take n := by
  apply List.ext_getElem?
  intro i
  rw [List.getElem?_take, List.getElem?_take]
  by_cases c : i < n
  · rw [if_pos c, if_pos c, List.getElem?_set_ne (by omega)]
  · rw [if_neg c, if_neg c]

theorem table_set_succ (arr : List Mac) (n : Nat) (mac : Mac) (h : n < arr.length) :
    (arr.set n mac).take (n + 1) = arr.take n ++ [mac] := by
  rw [List.take_succ, List.getElem?_set_self h, table_set_same]
  rfl


/-- Summary of `addPeerIfNew` on an in-bounds state: it always returns, the result is
in bounds, and the table grows by the address exactly when `true` is returned. -/
theorem addPeerIfNew_summary (maxPeers : Nat) (mac : Mac) (addOk : Bool) (s : State)
    (hb : InBounds maxPeers s) :
    ∃ r s1, addPeerIfNew maxPeers mac addOk s = some (r, s1) ∧ InBounds maxPeers s1 ∧
      s1.table = (if r then s.table ++ [mac] else s.table) ∧
      (r = true → mac ∉ s.table ∧ addOk = true ∧ s1.peerCount = s.peerCount + 1 ∧
        s1.registered = mac :: s.registered ∧
        s1.trace = s.trace ++ [Event.esp_now_add_peer mac true]) ∧
      (r = false → s1.peerCount = s.peerCount ∧ s1.registered = s.registered) := by
  obtain ⟨hl, h0, hle⟩ := hb
  have hlen : s.peerCount.toNat ≤ s.peerAddresses.length := by omega
  by_cases hm : mac ∈ s.table
  · exact ⟨false, s, addPeerIfNew_present maxPeers mac addOk s hlen hm, ⟨hl, h0, hle⟩,
      by simp, by simp, by simp⟩
  · by_cases hroom : s.peerCount < (maxPeers : Int)
    · have hlt : s.peerCount.toNat < s.peerAddresses.length := by omega
      refine ⟨addOk, _, addPeerIfNew_room maxPeers mac addOk s h0 hlt hroom hm, ?_, ?_, ?_, ?_⟩
      · cases addOk
        · exact ⟨by simp [hl], by simpa using h0, by simpa using hle⟩
        · refine ⟨by simp [hl], ?_, ?_⟩
          · show 0 ≤ s.peerCount + 1
            omega
          · show s.peerCount + 1 ≤ (maxPeers : Int)
            omega
      · cases addOk
        · simp [State.table, table_set_same]
        · have e : (s.peerCount + 1).toNat = s.peerCount.toNat + 1 := by omega
          simp [State.table, e, table_set_succ _ _ _ hlt]
      · intro h
        subst h
        simp [hm]
      · intro h
        subst h
        simp
    · exact ⟨false, s, addPeerIfNew_full maxPeers mac addOk s hlen (by omega), ⟨hl, h0, hle⟩,
        by simp, by simp, by simp⟩

theorem addPeerIfNew_WF (maxPeers : Nat) (mac : Mac) (addOk : Bool) (s : State)
    (hw : WF maxPeers s) (r : Bool) (s1 : State)
    (h : addPeerIfNew maxPeers mac addOk s = some (r, s1)) : WF maxPeers s1 := by
  obtain ⟨r', s1', e, hb, ht, hr, _⟩ := addPeerIfNew_summary maxPeers mac addOk s hw.1
  rw [e] at h
  obtain ⟨rfl, rfl⟩ : r' = r ∧ s1' = s1 := by simpa using h
  refine ⟨hb, ?_⟩
  rw [ht]
  cases r'
  · simpa using hw.2
  · have hn := (hr rfl).1
    simp only [if_true]
    rw [List.nodup_append]
    refine ⟨hw.2, List.nodup_singleton mac, ?_⟩
    intro a ha hb'
    have : a = mac := by simpa using hb'
    exact hn (this ▸ ha)

theorem OnDataSent_summary (maxPeers : Nat) (mac : Mac) (status : esp_now_send_status_t)
    (s : State) (hb : InBounds maxPeers s) :
    ∃ s1, OnDataSent mac status s = some s1 ∧ InBounds maxPeers s1 ∧
      (s1 = s ∨ (status = ESP_NOW_SEND_FAIL ∧ mac ∈ s.table ∧
        s1.table = s.table.erase mac ∧ s1.peerCount = s.peerCount - 1 ∧
        s1.registered = s.registered.filter (fun m => decide (m ≠ mac)) ∧
        s1.trace = s.trace ++ [Event.esp_now_del_peer mac])) := by
  obtain ⟨hl, h0, hle⟩ := hb
  cases status
  · exact ⟨s, OnDataSent_success_eq mac s, ⟨hl, h0, hle⟩, Or.inl rfl⟩
  · obtain ⟨s1, e1, e2, e3, e4, e5⟩ := OnDataSent_fail_eq mac s h0 (by omega)
    by_cases hm : mac ∈ s.table
    · obtain ⟨f1, f2, f3⟩ := e4 hm
      have hpos : 0 < s.peerCount := by
        by_contra hc
        have hz : s.peerCount.toNat = 0 := by omega
        simp [State.table, hz] at hm
      exact ⟨s1, e1, ⟨by rw [e2, hl], by omega, by omega⟩, Or.inr ⟨rfl, hm, e3, f1, f2, f3⟩⟩
    · have := e5 hm
      subst this
      exact ⟨s1, e1, ⟨hl, h0, hle⟩, Or.inl rfl⟩

theorem OnDataSent_WF (maxPeers : Nat) (mac : Mac) (status : esp_now_send_status_t)
    (s : State) (hw : WF maxPeers s) (s1 : State) (h : OnDataSent mac status s = some s1) :
    WF maxPeers s1 := by
  obtain ⟨s1', e, hb, hc⟩ := OnDataSent_summary maxPeers mac status s hw.1
  rw [e] at h
  obtain rfl : s1' = s1 := by simpa using h
  rcases hc with rfl | ⟨_, _, ht, _⟩
  · exact hw
  · exact ⟨hb, by rw [ht]; exact hw.2.erase mac⟩

theorem initState_WF (maxPeers : Nat) (registered : List Mac) :
    WF maxPeers (initState maxPeers registered) := by
  refine ⟨⟨by simp [initState], by simp [initState], by simp [initState]⟩, ?_⟩
  simp [State.table, initState]

theorem step_WF (maxPeers : Nat) (c : Call) (s : State) (hw : WF maxPeers s) :
    ∃ s1, step maxPeers c s = some s1 ∧ WF maxPeers s1 := by
  cases c with
  | addPeerIfNew mac addOk =>
    obtain ⟨r, s1, e, _⟩ := addPeerIfNew_summary maxPeers mac addOk s hw.1
    exact ⟨s1, by simp [step, e], addPeerIfNew_WF maxPeers mac addOk s hw r s1 e⟩
  | OnDataSent mac status =>
    obtain ⟨s1, e, _⟩ := OnDataSent_summary maxPeers mac status s hw.1
    exact ⟨s1, by simp [step, e], OnDataSent_WF maxPeers mac status s hw s1 e⟩

theorem run_WF (maxPeers : Nat) : ∀ (calls : List Call) (s : State), WF maxPeers s →
    ∃ s1, run maxPeers calls s = some s1 ∧ WF maxPeers s1
  | [], s, hw => ⟨s, rfl, hw⟩
  | c :: cs, s, hw => by
    obtain ⟨s1, e1, hw1⟩ := step_WF maxPeers c s hw
    obtain ⟨s2, e2, hw2⟩ := run_WF maxPeers cs s1 hw1
    exact ⟨s2, by simp [run, e1, e2], hw2⟩

theorem WF_slots_distinct (maxPeers : Nat) (s : State) (hw : WF maxPeers s) (i j : Nat)
    (hij : i < j) (hj : (j : Int) < s.peerCount) (p q : Mac)
    (hp : s.peerAddresses[i]? = some p) (hq : s.peerAddresses[j]? = some q) :
    memcmp p.toList q.toList 6 ≠ 0 := by
  obtain ⟨⟨hl, h0, hle⟩, hn⟩ := hw
  rw [Ne, memcmp_mac]
  intro hpq
  have hjn : j < s.peerCount.toNat := by omega
  have hlen : j < s.table.length := by
    simp only [State.table, List.length_take]; omega
  have h := List.nodup_iff_getElem?_ne_getElem?.mp hn i j hij hlen
  apply h
  simp only [State.table, List.getElem?_take]
  rw [if_pos (by omega), if_pos hjn, hp, hq, hpq]

/-! ## The peer table: admission and eviction -/

/-- C1: after any sequence of `addPeerIfNew` and `OnDataSent` calls from the empty
table, whatever the addresses, the send statuses and the driver's answers, the calls
all return, `0 ≤ peerCount ≤ MAX_PEERS`, and the first `peerCount` slots are pairwise
distinct: no two of them compare equal under `memcmp(.., .., 6)`. -/
theorem C1_table_bounded_and_distinct (calls : List Call) (registered : List Mac) :
    ∃ s, run MAX_PEERS calls (initState MAX_PEERS registered) = some s ∧
      0 ≤ s.peerCount ∧ s.peerCount ≤ (MAX_PEERS : Int) ∧ s.table.Nodup ∧
      ∀ i j : Nat, i < j → (j : Int) < s.peerCount → ∀ p q : Mac,
        s.peerAddresses[i]? = some p → s.peerAddresses[j]? = some q →
        memcmp p.toList q.toList 6 ≠ 0 := by
  obtain ⟨s, e, hw⟩ := run_WF MAX_PEERS calls _ (initState_WF MAX_PEERS registered)
  exact ⟨s, e, hw.1.2.1, hw.1.2.2, hw.2, WF_slots_distinct MAX_PEERS s hw⟩

/-- C2: on a table with room (`peerCount < MAX_PEERS`) that does not hold `a`, when
`esp_now_add_peer` succeeds, `addPeerIfNew(a)` returns `true`; the new table is the old
one followed by `a`, every earlier slot is untouched and `peerCount` is one more. -/
theorem C2_admit_appends (s : State) (a : Mac) (hb : InBounds MAX_PEERS s)
    (hroom : s.peerCount < (MAX_PEERS : Int)) (ha : a ∉ s.table) :
    ∃ s1, addPeerIfNew MAX_PEERS a true s = some (true, s1) ∧
      s1.table = s.table ++ [a] ∧
      s1.peerCount = s.peerCount + 1 ∧
      (∀ i : Nat, (i : Int) < s.peerCount → s1.peerAddresses[i]? = s.peerAddresses[i]?) ∧
      s1.peerAddresses[s.peerCount.toNat]? = some a := by
  obtain ⟨hl, h0, hle⟩ := hb
  have hlt : s.peerCount.toNat < s.peerAddresses.length := by omega
  refine ⟨_, addPeerIfNew_room MAX_PEERS a true s h0 hlt hroom ha, ?_, ?_, ?_, ?_⟩
  · have e : (s.peerCount + 1).toNat = s.peerCount.toNat + 1 := by omega
    simp [State.table, e, table_set_succ _ _ _ hlt]
  · simp
  · intro i hi
    exact List.getElem?_set_ne (by omega)
  · exact List.getElem?_set_self hlt


/-- C2 at a table holding one address. -/
theorem C2_admit_appends_witness :
    InBounds MAX_PEERS (stateOf MAX_PEERS [addrA]) ∧
    (stateOf MAX_PEERS [addrA]).peerCount < (MAX_PEERS : Int) ∧
    addrB ∉ (stateOf MAX_PEERS [addrA]).table ∧
    ∃ s1, addPeerIfNew MAX_PEERS addrB true (stateOf MAX_PEERS [addrA]) = some (true, s1) ∧
      s1.table = (stateOf MAX_PEERS [addrA]).table ++ [addrB] ∧
      s1.peerCount = (stateOf MAX_PEERS [addrA]).peerCount + 1 ∧
      (∀ i : Nat, (i : Int) < (stateOf MAX_PEERS [addrA]).peerCount →
        s1.peerAddresses[i]? = (stateOf MAX_PEERS [addrA]).peerAddresses[i]?) ∧
      s1.peerAddresses[(stateOf MAX_PEERS [addrA]).peerCount.toNat]? = some addrB :=
  ⟨by decide, by decide, by decide,
    C2_admit_appends (stateOf MAX_PEERS [addrA]) addrB (by decide) (by decide) (by decide)⟩

/-- C3: on a table without duplicates that holds `a`, `OnDataSent(a, failure)` returns
with `peerCount` one less, `a` no longer in the table, and the table equal to the old
one with the entry `a` taken out, the others keeping their relative order: the old table
is `l1 ++ a :: l2` and the new one `l1 ++ l2`. -/
theorem C3_evict_stable (s : State) (a : Mac) (hw : WF MAX_PEERS s) (ha : a ∈ s.table) :
    ∃ s1, OnDataSent a ESP_NOW_SEND_FAIL s = some s1 ∧
      s1.peerCount = s.peerCount - 1 ∧
      s1.table.length + 1 = s.table.length ∧
      a ∉ s1.table ∧
      s1.table = s.table.erase a ∧
      ∃ l1 l2, s.table = l1 ++ a :: l2 ∧ s1.table = l1 ++ l2 := by
  obtain ⟨⟨hl, h0, hle⟩, hn⟩ := hw
  obtain ⟨s1, e1, _, e3, e4, _⟩ := OnDataSent_fail_eq a s h0 (by omega)
  obtain ⟨l1, l2, hsplit, hl1⟩ := List.eq_append_cons_of_mem ha
  refine ⟨s1, e1, (e4 ha).1, ?_, ?_, e3, l1, l2, hsplit, ?_⟩
  · rw [e3, List.length_erase_of_mem ha]
    have : 0 < s.table.length := List.length_pos_of_mem ha
    omega
  · rw [e3]
    exact hn.not_mem_erase
  · rw [e3, hsplit, List.erase_append_right _ hl1, List.erase_cons_head]

/-- C3 at the table `[A, B, C]`, evicting `B`. -/
theorem C3_evict_stable_witness :
    WF MAX_PEERS (stateOf MAX_PEERS [addrA, addrB, addrC]) ∧
    addrB ∈ (stateOf MAX_PEERS [addrA, addrB, addrC]).table ∧
    ∃ s1, OnDataSent addrB ESP_NOW_SEND_FAIL (stateOf MAX_PEERS [addrA, addrB, addrC]) = some s1 ∧
      s1.peerCount = (stateOf MAX_PEERS [addrA, addrB, addrC]).peerCount - 1 ∧
      s1.table.length + 1 = (stateOf MAX_PEERS [addrA, addrB, addrC]).table.length ∧
      addrB ∉ s1.table ∧
      s1.table = (stateOf MAX_PEERS [addrA, addrB, addrC]).table.erase addrB ∧
      ∃ l1 l2, (stateOf MAX_PEERS [addrA, addrB, addrC]).table = l1 ++ addrB :: l2 ∧
        s1.table = l1 ++ l2 :=
  ⟨by decide, by decide,
    C3_evict_stable (stateOf MAX_PEERS [addrA, addrB, addrC]) addrB (by decide) (by decide)⟩

/-- C4: on a table with `peerCount = MAX_PEERS` that does not hold `a`,
`addPeerIfNew(a)` returns `false` and the state is the one before the call: the same
`peerCount`, the same slots, and no call to `esp_now_add_peer` recorded. -/
theorem C4_full_rejects (s : State) (a : Mac) (addOk : Bool) (hb : InBounds MAX_PEERS s)
    (hfull : s.peerCount = (MAX_PEERS : Int)) (ha : a ∉ s.table) :
    ∃ s1, addPeerIfNew MAX_PEERS a addOk s = some (false, s1) ∧
      s1.peerCount = s.peerCount ∧ s1.peerAddresses = s.peerAddresses ∧
      s1.trace = s.trace ∧ s1.registered = s.registered ∧ a ∉ s1.table := by
  obtain ⟨hl, h0, hle⟩ := hb
  exact ⟨s, addPeerIfNew_full MAX_PEERS a addOk s (by omega) (by omega), rfl, rfl, rfl, rfl, ha⟩

/-- C4 at a table of `MAX_PEERS` distinct addresses. -/
theorem C4_full_rejects_witness :
    InBounds MAX_PEERS fullState ∧ fullState.peerCount = (MAX_PEERS : Int) ∧
    addrA ∉ fullState.table ∧
    ∃ s1, addPeerIfNew MAX_PEERS addrA true fullState = some (false, s1) ∧
      s1.peerCount = fullState.peerCount ∧ s1.peerAddresses = fullState.peerAddresses ∧
      s1.trace = fullState.trace ∧ s1.registered = fullState.registered ∧
      addrA ∉ s1.table :=
  ⟨by decide, by decide, by decide,
    C4_full_rejects fullState addrA true (by decide) (by decide) (by decide)⟩

/-- C5: on a table that does not hold `a`, when `esp_now_add_peer` fails,
`addPeerIfNew(a)` returns `false`, `peerCount` and the first `peerCount` slots are as
before, `a` is not in the table and the driver's peer list is as before; when there was
room, the failed call is the only one recorded. -/
theorem C5_registration_failure_rolls_back (s : State) (a : Mac)
    (hb : InBounds MAX_PEERS s) (ha : a ∉ s.table) :
    ∃ s1, addPeerIfNew MAX_PEERS a false s = some (false, s1) ∧
      s1.peerCount = s.peerCount ∧ s1.table = s.table ∧ a ∉ s1.table ∧
      s1.registered = s.registered ∧
      (s.peerCount < (MAX_PEERS : Int) →
        s1.trace = s.trace ++ [Event.esp_now_add_peer a false]) := by
  obtain ⟨hl, h0, hle⟩ := hb
  by_cases hroom : s.peerCount < (MAX_PEERS : Int)
  · have hlt : s.peerCount.toNat < s.peerAddresses.length := by omega
    have ht : ({ peerAddresses := s.peerAddresses.set s.peerCount.toNat a
                 peerCount := s.peerCount
                 registered := s.registered
                 trace := s.trace ++ [Event.esp_now_add_peer a false] } : State).table
        = s.table := by
      simp [State.table, table_set_same]
    refine ⟨{ peerAddresses := s.peerAddresses.set s.peerCount.toNat a
              peerCount := s.peerCount
              registered := s.registered
              trace := s.trace ++ [Event.esp_now_add_peer a false] },
      by simpa using addPeerIfNew_room MAX_PEERS a false s h0 hlt hroom ha,
      rfl, ht, ?_, rfl, fun _ => rfl⟩
    rw [ht]; exact ha
  · exact ⟨s, addPeerIfNew_full MAX_PEERS a false s (by omega) (by omega), rfl, rfl, ha, rfl,
      fun h => absurd h hroom⟩

/-- C5 at the table `[A]`, the registration of `B` failing. -/
theorem C5_registration_failure_rolls_back_witness :
    InBounds MAX_PEERS (stateOf MAX_PEERS [addrA]) ∧
    addrB ∉ (stateOf MAX_PEERS [addrA]).table ∧
    ∃ s1, addPeerIfNew MAX_PEERS addrB false (stateOf MAX_PEERS [addrA]) = some (false, s1) ∧
      s1.peerCount = (stateOf MAX_PEERS [addrA]).peerCount ∧
      s1.table = (stateOf MAX_PEERS [addrA]).table ∧ addrB ∉ s1.table ∧
      s1.registered = (stateOf MAX_PEERS [addrA]).registered ∧
      ((stateOf MAX_PEERS [addrA]).peerCount < (MAX_PEERS : Int) →
        s1.trace = (stateOf MAX_PEERS [addrA]).trace ++ [Event.esp_now_add_peer addrB false]) :=
  ⟨by decide, by decide,
    C5_registration_failure_rolls_back (stateOf MAX_PEERS [addrA]) addrB (by decide) (by decide)⟩

theorem step_registered (maxPeers : Nat) (c : Call) (s : State) (hw : WF maxPeers s)
    (hr : TableRegistered s) (s1 : State) (h : step maxPeers c s = some s1) :
    TableRegistered s1 := by
  cases c with
  | addPeerIfNew mac addOk =>
    obtain ⟨r, s2, e, _, ht, h1, h2⟩ := addPeerIfNew_summary maxPeers mac addOk s hw.1
    have : s2 = s1 := by simpa [step, e] using h
    subst this
    intro a ha
    rw [ht] at ha
    cases r
    · rw [(h2 rfl).2]
      exact hr a (by simpa using ha)
    · rw [(h1 rfl).2.2.2.1]
      simp only [if_true, List.mem_append, List.mem_singleton] at ha
      rcases ha with ha | ha
      · exact List.mem_cons_of_mem _ (hr a ha)
      · rw [ha]; exact List.mem_cons_self _ _
  | OnDataSent mac status =>
    obtain ⟨s2, e, _, hc⟩ := OnDataSent_summary maxPeers mac status s hw.1
    have : s2 = s1 := by simpa [step, e] using h
    subst this
    rcases hc with rfl | ⟨_, _, ht, _, hreg, _⟩
    · exact hr
    · intro a ha
      rw [ht] at ha
      have := (hw.2.mem_erase_iff).mp ha
      rw [hreg, List.mem_filter]
      exact ⟨hr a this.2, by simpa using this.1⟩

theorem run_registered (maxPeers : Nat) : ∀ (calls : List Call) (s : State), WF maxPeers s →
    TableRegistered s → ∃ s1, run maxPeers calls s = some s1 ∧ WF maxPeers s1 ∧
      TableRegistered s1
  | [], s, hw, hr => ⟨s, rfl, hw, hr⟩
  | c :: cs, s, hw, hr => by
    obtain ⟨s1, e1, hw1⟩ := step_WF maxPeers c s hw
    obtain ⟨s2, e2, hw2, hr2⟩ :=
      run_registered maxPeers cs s1 hw1 (step_registered maxPeers c s hw hr s1 e1)
    exact ⟨s2, by simp [run, e1, e2], hw2, hr2⟩

/-- C6: in every state reached from the empty table by `addPeerIfNew` and `OnDataSent`
calls, each address of the peer table is in the driver's peer list; from such a state,
an `addPeerIfNew(a)` that returns `true` has issued a successful `esp_now_add_peer(a)`
and `a` is then registered, and an `OnDataSent(a, status)` that changes anything has
issued `esp_now_del_peer(a)`, has taken `a` out of the table and `a` is then no longer
registered. -/
theorem C6_table_registered (calls : List Call) (registered : List Mac) :
    ∃ s, run MAX_PEERS calls (initState MAX_PEERS registered) = some s ∧
      (∀ a ∈ s.table, a ∈ s.registered) ∧
      (∀ (a : Mac) (addOk : Bool) (s1 : State),
        addPeerIfNew MAX_PEERS a addOk s = some (true, s1) →
          s1.trace = s.trace ++ [Event.esp_now_add_peer a true] ∧
          a ∈ s1.table ∧ a ∈ s1.registered) ∧
      (∀ (a : Mac) (status : esp_now_send_status_t) (s1 : State),
        OnDataSent a status s = some s1 → s1 ≠ s →
          s1.trace = s.trace ++ [Event.esp_now_del_peer a] ∧
          a ∉ s1.table ∧ a ∉ s1.registered) := by
  obtain ⟨s, e, hw, hr⟩ := run_registered MAX_PEERS calls _
    (initState_WF MAX_PEERS registered) (by simp [TableRegistered, State.table, initState])
  refine ⟨s, e, hr, ?_, ?_⟩
  · intro a addOk s1 h
    obtain ⟨r, s2, e2, _, ht, h1, _⟩ := addPeerIfNew_summary MAX_PEERS a addOk s hw.1
    rw [e2] at h
    obtain ⟨rfl, rfl⟩ : r = true ∧ s2 = s1 := by simpa using h
    obtain ⟨_, _, _, hreg, htr⟩ := h1 rfl
    exact ⟨htr, by simp [ht], by simp [hreg]⟩
  · intro a status s1 h hne
    obtain ⟨s2, e2, _, hc⟩ := OnDataSent_summary MAX_PEERS a status s hw.1
    rw [e2] at h
    obtain rfl : s2 = s1 := by simpa using h
    rcases hc with rfl | ⟨_, _, ht, _, hreg, htr⟩
    · exact absurd rfl hne
    · refine ⟨htr, ?_, ?_⟩
      · rw [ht]; exact hw.2.not_mem_erase
      · rw [hreg, List.mem_filter]
        simp

theorem addPeerIfNew_admit (maxPeers : Nat) (a : Mac) (s : State) (hb : InBounds maxPeers s)
    (hroom : s.peerCount < (maxPeers : Int)) (ha : a ∉ s.table) :
    ∃ s1, addPeerIfNew maxPeers a true s = some (true, s1) ∧ InBounds maxPeers s1 ∧
      s1.table = s.table ++ [a] ∧ s1.peerCount = s.peerCount + 1 := by
  obtain ⟨hl, h0, hle⟩ := hb
  have hlt : s.peerCount.toNat < s.peerAddresses.length := by omega
  obtain ⟨r, s1, e, hb1, ht, h1, _⟩ := addPeerIfNew_summary maxPeers a true s ⟨hl, h0, hle⟩
  have e2 := addPeerIfNew_room maxPeers a true s h0 hlt hroom ha
  rw [e] at e2
  obtain ⟨rfl, hs⟩ : r = true ∧ s1 = _ := by simpa using e2
  exact ⟨s1, e, hb1, by simpa using ht, (h1 rfl).2.2.1⟩

/-- C7: on a table with room that does not hold `a`, when `esp_now_add_peer` succeeds,
a first `addPeerIfNew(a)` returns `true` and a second one returns `false` whatever the
driver would answer, leaving the state of the first call as it is: the same
`peerCount`, the same slots and no further driver call recorded. -/
theorem C7_admit_twice (s : State) (a : Mac) (hb : InBounds MAX_PEERS s)
    (hroom : s.peerCount < (MAX_PEERS : Int)) (ha : a ∉ s.table) :
    ∃ s1, addPeerIfNew MAX_PEERS a true s = some (true, s1) ∧
      s1.peerCount = s.peerCount + 1 ∧
      ∀ addOk : Bool, ∃ s2, addPeerIfNew MAX_PEERS a addOk s1 = some (false, s2) ∧
        s2.peerCount = s1.peerCount ∧ s2.peerAddresses = s1.peerAddresses ∧
        s2.trace = s1.trace ∧ s2.registered = s1.registered := by
  obtain ⟨s1, e, hb1, ht, hpc⟩ := addPeerIfNew_admit MAX_PEERS a s hb hroom ha
  refine ⟨s1, e, hpc, fun addOk => ⟨s1, ?_, rfl, rfl, rfl, rfl⟩⟩
  obtain ⟨hl, h0, hle⟩ := hb1
  exact addPeerIfNew_present MAX_PEERS a addOk s1 (by omega) (by simp [ht])

/-- C7 at the table `[A]`, admitting `B` twice. -/
theorem C7_admit_twice_witness :
    InBounds MAX_PEERS (stateOf MAX_PEERS [addrA]) ∧
    (stateOf MAX_PEERS [addrA]).peerCount < (MAX_PEERS : Int) ∧
    addrB ∉ (stateOf MAX_PEERS [addrA]).table ∧
    ∃ s1, addPeerIfNew MAX_PEERS addrB true (stateOf MAX_PEERS [addrA]) = some (true, s1) ∧
      s1.peerCount = (stateOf MAX_PEERS [addrA]).peerCount + 1 ∧
      ∀ addOk : Bool, ∃ s2, addPeerIfNew MAX_PEERS addrB addOk s1 = some (false, s2) ∧
        s2.peerCount = s1.peerCount ∧ s2.peerAddresses = s1.peerAddresses ∧
        s2.trace = s1.trace ∧ s2.registered = s1.registered :=
  ⟨by decide, by decide, by decide,
    C7_admit_twice (stateOf MAX_PEERS [addrA]) addrB (by decide) (by decide) (by decide)⟩

/-- C8: `OnDataSent` with status success leaves the state as it is; with status failure
and an address that is not in the table it leaves the state as it is (same `peerCount`,
same slots, no `esp_now_del_peer` recorded); and on a table without duplicates a second
`OnDataSent(Y, failure)` leaves the state of the first one as it is. -/
theorem C8_OnDataSent_frame (s : State) (a : Mac) (hb : InBounds MAX_PEERS s) :
    OnDataSent a ESP_NOW_SEND_SUCCESS s = some s ∧
    (a ∉ s.table → OnDataSent a ESP_NOW_SEND_FAIL s = some s) ∧
    (s.table.Nodup → ∃ s1, OnDataSent a ESP_NOW_SEND_FAIL s = some s1 ∧
      OnDataSent a ESP_NOW_SEND_FAIL s1 = some s1) := by
  obtain ⟨hl, h0, hle⟩ := hb
  obtain ⟨s1, e1, e2, e3, e4, e5⟩ := OnDataSent_fail_eq a s h0 (by omega)
  refine ⟨OnDataSent_success_eq a s, ?_, ?_⟩
  · intro ha
    rw [e1, e5 ha]
  · intro hn
    obtain ⟨s2, f1, hb2, _⟩ := OnDataSent_summary MAX_PEERS a ESP_NOW_SEND_FAIL s ⟨hl, h0, hle⟩
    rw [e1] at f1
    obtain rfl : s2 = s1 := by simpa using f1.symm
    obtain ⟨hl2, h02, hle2⟩ := hb2
    obtain ⟨s3, g1, _, _, _, g5⟩ := OnDataSent_fail_eq a s2 h02 (by omega)
    have hnot : a ∉ s2.table := by rw [e3]; exact hn.not_mem_erase
    exact ⟨s2, e1, by rw [g1, g5 hnot]⟩

/-- C8 at the table `[A, C]` with the absent address `B`, and at the table `[A, B, C]`
with the member `B`. -/
theorem C8_OnDataSent_frame_witness :
    (InBounds MAX_PEERS (stateOf MAX_PEERS [addrA, addrC]) ∧
      addrB ∉ (stateOf MAX_PEERS [addrA, addrC]).table ∧
      OnDataSent addrB ESP_NOW_SEND_SUCCESS (stateOf MAX_PEERS [addrA, addrC]) =
        some (stateOf MAX_PEERS [addrA, addrC]) ∧
      OnDataSent addrB ESP_NOW_SEND_FAIL (stateOf MAX_PEERS [addrA, addrC]) =
        some (stateOf MAX_PEERS [addrA, addrC])) ∧
    (InBounds MAX_PEERS (stateOf MAX_PEERS [addrA, addrB, addrC]) ∧
      (stateOf MAX_PEERS [addrA, addrB, addrC]).table.Nodup ∧
      ∃ s1, OnDataSent addrB ESP_NOW_SEND_FAIL (stateOf MAX_PEERS [addrA, addrB, addrC]) = some s1 ∧
        OnDataSent addrB ESP_NOW_SEND_FAIL s1 = some s1) :=
  ⟨⟨by decide, by decide,
      (C8_OnDataSent_frame (stateOf MAX_PEERS [addrA, addrC]) addrB (by decide)).1,
      (C8_OnDataSent_frame (stateOf MAX_PEERS [addrA, addrC]) addrB (by decide)).2.1 (by decide)⟩,
    ⟨by decide, by decide,
      (C8_OnDataSent_frame (stateOf MAX_PEERS [addrA, addrB, addrC]) addrB (by decide)).2.2
        (by decide)⟩⟩

theorem table_length (maxPeers : Nat) (s : State) (hb : InBounds maxPeers s) :
    s.table.length = s.peerCount.toNat := by
  obtain ⟨hl, h0, hle⟩ := hb
  simp only [State.table, List.length_take]
  omega

theorem run_admit (maxPeers : Nat) : ∀ (peers : List Mac) (s : State), InBounds maxPeers s →
    (s.table ++ peers).Nodup → s.table.length + peers.length ≤ maxPeers →
    ∃ s1, run maxPeers (peers.map (fun p => Call.addPeerIfNew p true)) s = some s1 ∧
      InBounds maxPeers s1 ∧ s1.table = s.table ++ peers
  | [], s, hb, _, _ => ⟨s, rfl, hb, by simp⟩
  | p :: ps, s, hb, hn, hlen => by
    have hp : p ∉ s.table := by
      intro hp
      exact (List.nodup_append.mp hn).2.2 hp (List.mem_cons_self _ _)
    have htl := table_length maxPeers s hb
    have hroom : s.peerCount < (maxPeers : Int) := by
      have := hb.2.1
      simp only [List.length_cons] at hlen
      omega
    obtain ⟨s1, e1, hb1, ht1, _⟩ := addPeerIfNew_admit maxPeers p s hb hroom hp
    have hn1 : (s1.table ++ ps).Nodup := by
      rw [ht1, List.append_assoc]; exact hn
    have hlen1 : s1.table.length + ps.length ≤ maxPeers := by
      rw [ht1]; simp only [List.length_append, List.length_cons, List.length_nil] at hlen ⊢
      omega
    obtain ⟨s2, e2, hb2, ht2⟩ := run_admit maxPeers ps s1 hb1 hn1 hlen1
    refine ⟨s2, ?_, hb2, ?_⟩
    · simp [run, step, e1, e2]
    · rw [ht2, ht1, List.append_assoc]; rfl

/-- C9: for every capacity, when distinct addresses have been admitted from the empty
table until it is full, `addPeerIfNew(C)` for a new address `C` returns `false` and
changes nothing; after `OnDataSent(A, failure)` for a member `A`, `addPeerIfNew(C)` with
a successful registration returns `true` and the table is the admitted addresses without
`A`, in their order, followed by `C`. -/
theorem C9_capacity_recovered (maxPeers : Nat) (peers registered : List Mac) (A C : Mac)
    (hd : peers.Nodup) (hlen : peers.length = maxPeers) (hA : A ∈ peers) (hC : C ∉ peers) :
    ∃ sFull, run maxPeers (peers.map (fun p => Call.addPeerIfNew p true))
        (initState maxPeers registered) = some sFull ∧
      sFull.table = peers ∧ sFull.peerCount = (maxPeers : Int) ∧
      (∀ addOk : Bool, addPeerIfNew maxPeers C addOk sFull = some (false, sFull)) ∧
      ∃ s2, OnDataSent A ESP_NOW_SEND_FAIL sFull = some s2 ∧
        s2.table = peers.erase A ∧ s2.peerCount = (maxPeers : Int) - 1 ∧
        ∃ s3, addPeerIfNew maxPeers C true s2 = some (true, s3) ∧
          s3.table = peers.erase A ++ [C] ∧ s3.peerCount = (maxPeers : Int) := by
  have hw0 := initState_WF maxPeers registered
  have ht0 : (initState maxPeers registered).table = [] := by simp [State.table, initState]
  obtain ⟨sFull, e1, hb1, ht1⟩ := run_admit maxPeers peers (initState maxPeers registered)
    hw0.1 (by rw [ht0]; simpa using hd) (by rw [ht0]; simp [hlen])
  rw [ht0, List.nil_append] at ht1
  have hpc : sFull.peerCount = (maxPeers : Int) := by
    have h1 := table_length maxPeers sFull hb1
    have h2 := hb1.2.1
    rw [ht1, hlen] at h1
    omega
  obtain ⟨hl, h0, hle⟩ := hb1
  obtain ⟨s2, f1, hb2, hc⟩ := OnDataSent_summary maxPeers A ESP_NOW_SEND_FAIL sFull ⟨hl, h0, hle⟩
  have hA' : A ∈ sFull.table := by rw [ht1]; exact hA
  have hs2 : s2.table = peers.erase A ∧ s2.peerCount = (maxPeers : Int) - 1 := by
    rcases hc with rfl | ⟨_, _, ht, hp, _⟩
    · obtain ⟨s2', g1, _, _, g4, _⟩ := OnDataSent_fail_eq A s2 h0 (by omega)
      rw [f1] at g1
      obtain rfl : s2 = s2' := by simpa using g1
      have := (g4 hA').1
      omega
    · exact ⟨by rw [ht, ht1], by rw [hp, hpc]⟩
  have hC2 : C ∉ s2.table := by
    rw [hs2.1]
    intro h
    exact hC (List.mem_of_mem_erase h)
  obtain ⟨s3, k1, _, k3, k4⟩ := addPeerIfNew_admit maxPeers C s2 hb2 (by rw [hs2.2]; omega) hC2
  refine ⟨sFull, e1, ht1, hpc, ?_, s2, f1, hs2.1, hs2.2, s3, k1, ?_, ?_⟩
  · intro addOk
    exact addPeerIfNew_full maxPeers C addOk sFull (by omega) (by omega)
  · rw [k3, hs2.1]
  · rw [k4, hs2.2]; omega

/-- C9 on the scenario of a table of capacity 2: admit `A`, admit `B`, `C` is rejected,
evict `A`, `C` is admitted and the table is `[B, C]`. -/
theorem C9_capacity_recovered_witness :
    [addrA, addrB].Nodup ∧ [addrA, addrB].length = 2 ∧ addrA ∈ [addrA, addrB] ∧
    addrC ∉ [addrA, addrB] ∧
    ∃ sFull, run 2 ([addrA, addrB].map (fun p => Call.addPeerIfNew p true))
        (initState 2 []) = some sFull ∧
      sFull.table = [addrA, addrB] ∧ sFull.peerCount = ((2 : Nat) : Int) ∧
      (∀ addOk : Bool, addPeerIfNew 2 addrC addOk sFull = some (false, sFull)) ∧
      ∃ s2, OnDataSent addrA ESP_NOW_SEND_FAIL sFull = some s2 ∧
        s2.table = [addrA, addrB].erase addrA ∧ s2.peerCount = ((2 : Nat) : Int) - 1 ∧
        ∃ s3, addPeerIfNew 2 addrC true s2 = some (true, s3) ∧
          s3.table = [addrA, addrB].erase addrA ++ [addrC] ∧
          s3.peerCount = ((2 : Nat) : Int) :=
  ⟨by decide, by decide, by decide, by decide,
    C9_capacity_recovered 2 [addrA, addrB] [] addrA addrC (by decide) (by decide) (by decide)
      (by decide)⟩

/-- C10, as stated, fails: a frame of 41 bytes, shorter than `sizeof(MessageData)`, with
`messageType = 1` and `ledState` set, received from the unknown address `A` on the empty
table, is not discarded: `A` is admitted and `digitalWrite(LED_PIN, true)` is issued. -/
theorem C10_short_frame_not_discarded :
    (41 : Int) < (sizeofMessageData : Int) ∧
    ∃ s1, OnDataRecv MAX_PEERS addrA shortFrame 41 true (initState MAX_PEERS []) = some s1 ∧
      addrA ∈ s1.table ∧ s1.peerCount = 1 ∧
      Event.digitalWrite LED_PIN true ∈ s1.trace ∧
      s1 ≠ initState MAX_PEERS [] :=
  ⟨by decide, _, rfl, by decide, by decide, by decide, by decide⟩

/-- C10, amended: `OnDataRecv` never looks at `len`.  For every inbound frame, whatever
its length, the sender is passed to `addPeerIfNew` and the slots, `peerCount` and the
driver's peer list after `OnDataRecv` are those this call leaves; so an unknown sender
is admitted when the table has room and registration succeeds, also when the frame is
shorter than `sizeof(MessageData)`. -/
theorem C10_recv_admits_whatever_len (s : State) (mac_addr : Mac) (incomingData : Nat → Byte)
    (len : Int) (addOk : Bool) (hb : InBounds MAX_PEERS s) :
    ∃ r s1 s2, addPeerIfNew MAX_PEERS mac_addr addOk s = some (r, s1) ∧
      OnDataRecv MAX_PEERS mac_addr incomingData len addOk s = some s2 ∧
      s2.peerAddresses = s1.peerAddresses ∧ s2.peerCount = s1.peerCount ∧
      s2.registered = s1.registered ∧ s2.table = s1.table ∧
      (mac_addr ∉ s.table → s.peerCount < (MAX_PEERS : Int) → addOk = true →
        mac_addr ∈ s2.table ∧ s2.peerCount = s.peerCount + 1) := by
  obtain ⟨r, s1, e, _, ht, h1, _⟩ := addPeerIfNew_summary MAX_PEERS mac_addr addOk s hb
  have hadm : mac_addr ∉ s.table → s.peerCount < (MAX_PEERS : Int) → addOk = true →
      mac_addr ∈ s1.table ∧ s1.peerCount = s.peerCount + 1 := by
    intro ha hroom hok
    subst hok
    obtain ⟨s1', e', _, ht', hpc'⟩ := addPeerIfNew_admit MAX_PEERS mac_addr s hb hroom ha
    rw [e] at e'
    obtain ⟨_, rfl⟩ : r = true ∧ s1 = s1' := by simpa using e'
    exact ⟨by simp [ht'], hpc'⟩
  by_cases hm : (memcpyMessageData incomingData).messageType = 0
  · exact ⟨r, s1, s1, e, by simp [OnDataRecv, e, hm], rfl, rfl, rfl, rfl, hadm⟩
  · exact ⟨r, s1, digitalWrite LED_PIN (memcpyMessageData incomingData).ledState s1, e,
      by simp [OnDataRecv, e, hm], rfl, rfl, rfl, rfl, hadm⟩

/-- C10, amended, at a frame of length 0 from the unknown address `A` on the empty
table: `A` is admitted. -/
theorem C10_recv_admits_whatever_len_witness :
    InBounds MAX_PEERS (initState MAX_PEERS []) ∧
    addrA ∉ (initState MAX_PEERS []).table ∧
    (initState MAX_PEERS []).peerCount < (MAX_PEERS : Int) ∧
    (0 : Int) < (sizeofMessageData : Int) ∧
    ∃ r s1 s2, addPeerIfNew MAX_PEERS addrA true (initState MAX_PEERS []) = some (r, s1) ∧
      OnDataRecv MAX_PEERS addrA shortFrame 0 true (initState MAX_PEERS []) = some s2 ∧
      s2.peerAddresses = s1.peerAddresses ∧ s2.peerCount = s1.peerCount ∧
      s2.registered = s1.registered ∧ s2.table = s1.table ∧
      addrA ∈ s2.table ∧ s2.peerCount = (initState MAX_PEERS []).peerCount + 1 :=
  ⟨by decide, by decide, by decide, by decide, by
    obtain ⟨r, s1, s2, h1, h2, h3, h4, h5, h6, h7⟩ :=
      C10_recv_admits_whatever_len (initState MAX_PEERS []) addrA shortFrame 0 true (by decide)
    exact ⟨r, s1, s2, h1, h2, h3, h4, h5, h6, h7 (by decide) (by decide) rfl⟩⟩

/-! ## Lemmas on `loop` -/

theorem sendAll_eq (data : MessageData) : ∀ (k i : Nat) (s : State),
    i + k ≤ s.peerAddresses.length →
    loop.sendAll data i k s = some { s with
      trace := s.trace ++ ((s.peerAddresses.drop i).take k).map
        (fun p => Event.esp_now_send p data) }
  | 0, i, s, _ => by simp [loop.sendAll]
  | k + 1, i, s, h => by
    have hi : i < s.peerAddresses.length := by omega
    have hd : s.peerAddresses.drop i = s.peerAddresses[i] :: s.peerAddresses.drop (i + 1) :=
      List.drop_eq_getElem_cons hi
    rw [loop.sendAll, List.getElem?_eq_getElem hi, hd, List.take_succ_cons]
    have ih := sendAll_eq data k (i + 1) (esp_now_send s.peerAddresses[i] data s)
      (by simpa [esp_now_send] using (by omega : i + 1 + k ≤ s.peerAddresses.length))
    simp only [ih]
    simp [esp_now_send]

theorem loop_spec (now : Nat) (temperature : List Byte) (n : Node)
    (hlen : n.st.peerCount.toNat ≤ n.st.peerAddresses.length) :
    loop now temperature n = some
      { st := { n.st with
          trace := n.st.trace ++
            (if usub32 now n.lastDiscovery > 5000 then
              [Event.esp_now_send broadcastAddress (discoveryMessage n)] else []) ++
            (if usub32 now n.lastData > 2000 then
              n.st.table.map (fun p => Event.esp_now_send p (dataMessage temperature n))
             else []) }
        sentData :=
          if usub32 now n.lastData > 2000 then dataMessage temperature n
          else if usub32 now n.lastDiscovery > 5000 then discoveryMessage n
          else n.sentData
        lastDiscovery := if usub32 now n.lastDiscovery > 5000 then now else n.lastDiscovery
        lastData := if usub32 now n.lastData > 2000 then now else n.lastData
        counter :=
          if usub32 now n.lastData > 2000 then wrapInt32 (n.counter + 1) else n.counter
        callbacksRegistered := n.callbacksRegistered } := by
  by_cases hd : usub32 now n.lastDiscovery > 5000 <;>
  by_cases hm : usub32 now n.lastData > 2000
  · have h1 := sendAll_eq (dataMessage temperature n) n.st.peerCount.toNat 0
      (esp_now_send broadcastAddress (discoveryMessage n) n.st) (by simpa [esp_now_send] using hlen)
    simp only [loop, hd, hm, if_true]
    simp [esp_now_send, discoveryMessage, dataMessage, State.table] at h1 ⊢
    rw [h1]
  · simp [loop, hd, hm, esp_now_send, discoveryMessage]
  · have h1 := sendAll_eq (dataMessage temperature n) n.st.peerCount.toNat 0 n.st
      (by simpa using hlen)
    simp only [loop, hd, hm, if_true, if_false]
    simp [esp_now_send, discoveryMessage, dataMessage, State.table] at h1 ⊢
    rw [h1]
  · simp [loop, hd, hm]

/-! ## Inbound frames -/

theorem OnDataRecv_nonzero (maxPeers : Nat) (s : State) (mac_addr : Mac)
    (incomingData : Nat → Byte) (len : Int) (addOk : Bool) (hb : InBounds maxPeers s)
    (ht : incomingData 0 ≠ 0) :
    ∃ r s1, addPeerIfNew maxPeers mac_addr addOk s = some (r, s1) ∧
      InBounds maxPeers s1 ∧
      OnDataRecv maxPeers mac_addr incomingData len addOk s =
        some (digitalWrite LED_PIN (decide (incomingData 40 ≠ 0)) s1) ∧
      (mac_addr ∉ s.table → s.peerCount < (maxPeers : Int) → addOk = true →
        r = true ∧ s1.table = s.table ++ [mac_addr]) := by
  obtain ⟨r, s1, e, hb1, _, _, _⟩ := addPeerIfNew_summary maxPeers mac_addr addOk s hb
  refine ⟨r, s1, e, hb1, by simp [OnDataRecv, e, memcpyMessageData, ht], ?_⟩
  intro ha hroom hok
  subst hok
  obtain ⟨s1', e', _, ht', _⟩ := addPeerIfNew_admit maxPeers mac_addr s hb hroom ha
  rw [e] at e'
  obtain ⟨rfl, rfl⟩ : r = true ∧ s1 = s1' := by simpa using e'
  exact ⟨rfl, ht'⟩

/-- C11, as stated, fails: a full-size frame whose `messageType` byte (offset 0) is 2 and
whose `ledState` byte (offset 40) is 1, received from the unknown address `A` on the
empty table, is not discarded: `A` is admitted and `digitalWrite(LED_PIN, true)` is
issued. -/
theorem C11_unknown_type_not_discarded :
    unknownTypeFrame 0 ≠ 0 ∧ unknownTypeFrame 0 ≠ 1 ∧ unknownTypeFrame 40 = 1 ∧
    ∃ s1, OnDataRecv MAX_PEERS addrA unknownTypeFrame (sizeofMessageData : Int) true
        (initState MAX_PEERS []) = some s1 ∧
      addrA ∈ s1.table ∧ s1.peerCount = 1 ∧
      s1.trace = [Event.esp_now_add_peer addrA true, Event.digitalWrite LED_PIN true] :=
  ⟨by decide, by decide, by decide, _, rfl, by decide, by decide, by decide⟩

/-- C11, amended: `OnDataRecv` has no case for an unknown `messageType`.  Every frame
whose `messageType` byte (offset 0 of the frame) is not 0, be it 1 or any other value,
is handled as a data frame: the sender is passed to `addPeerIfNew` (and admitted when it
is unknown, the table has room and registration succeeds) and then
`digitalWrite(LED_PIN, ledState)` is issued, the level being high exactly when the
`ledState` byte of the frame (offset 40) is not zero. -/
theorem C11_nonzero_type_is_data (s : State) (mac_addr : Mac) (incomingData : Nat → Byte)
    (len : Int) (addOk : Bool) (hb : InBounds MAX_PEERS s) (ht : incomingData 0 ≠ 0) :
    ∃ r s1 s2, addPeerIfNew MAX_PEERS mac_addr addOk s = some (r, s1) ∧
      OnDataRecv MAX_PEERS mac_addr incomingData len addOk s = some s2 ∧
      s2.trace = s1.trace ++ [Event.digitalWrite LED_PIN (decide (incomingData 40 ≠ 0))] ∧
      s2.peerAddresses = s1.peerAddresses ∧ s2.peerCount = s1.peerCount ∧
      s2.registered = s1.registered ∧ s2.table = s1.table ∧
      (mac_addr ∉ s.table → s.peerCount < (MAX_PEERS : Int) → addOk = true →
        mac_addr ∈ s2.table) := by
  obtain ⟨r, s1, e, _, e2, hadm⟩ :=
    OnDataRecv_nonzero MAX_PEERS s mac_addr incomingData len addOk hb ht
  refine ⟨r, s1, _, e, e2, rfl, rfl, rfl, rfl, rfl, ?_⟩
  intro ha hroom hok
  show mac_addr ∈ s1.table
  rw [(hadm ha hroom hok).2]
  simp

/-- C11, amended, at two frames with `messageType = 2` from the unknown address `A` on
the empty table: with the `ledState` byte 1 the LED is driven high, with the `ledState`
byte 0 it is driven low; `A` is admitted both times. -/
theorem C11_nonzero_type_is_data_witness :
    InBounds MAX_PEERS (initState MAX_PEERS []) ∧
    unknownTypeFrame 0 ≠ 0 ∧ unknownTypeFrame 40 ≠ 0 ∧
    unknownTypeLedOff 0 ≠ 0 ∧ unknownTypeLedOff 40 = 0 ∧
    (∃ s2, OnDataRecv MAX_PEERS addrA unknownTypeFrame (sizeofMessageData : Int) true
        (initState MAX_PEERS []) = some s2 ∧
      s2.trace.getLast? = some (Event.digitalWrite LED_PIN true) ∧ addrA ∈ s2.table) ∧
    (∃ s2, OnDataRecv MAX_PEERS addrA unknownTypeLedOff (sizeofMessageData : Int) true
        (initState MAX_PEERS []) = some s2 ∧
      s2.trace.getLast? = some (Event.digitalWrite LED_PIN false) ∧ addrA ∈ s2.table) := by
  refine ⟨by decide, by decide, by decide, by decide, by decide, ?_, ?_⟩
  · obtain ⟨r, s1, s2, _, h2, h3, _, _, _, _, h5⟩ :=
      C11_nonzero_type_is_data (initState MAX_PEERS []) addrA unknownTypeFrame
        (sizeofMessageData : Int) true (by decide) (by decide)
    have hv : decide (unknownTypeFrame 40 ≠ 0) = true := by decide
    exact ⟨s2, h2, by rw [h3, hv]; simp, h5 (by decide) (by decide) rfl⟩
  · obtain ⟨r, s1, s2, _, h2, h3, _, _, _, _, h5⟩ :=
      C11_nonzero_type_is_data (initState MAX_PEERS []) addrA unknownTypeLedOff
        (sizeofMessageData : Int) true (by decide) (by decide)
    have hv : decide (unknownTypeLedOff 40 ≠ 0) = false := by decide
    exact ⟨s2, h2, by rw [h3, hv]; simp, h5 (by decide) (by decide) rfl⟩

/-- C12, as stated, fails: a well-formed data frame whose source address is the node's
own address, received on the empty table, is not discarded: the own address is
admitted to the peer table. -/
theorem C12_own_address_admitted :
    ∃ s1, OnDataRecv MAX_PEERS selfAddr dataFrame (sizeofMessageData : Int) true
        (initState MAX_PEERS []) = some s1 ∧
      selfAddr ∈ s1.table ∧ s1.table ≠ (initState MAX_PEERS []).table ∧
      s1.peerCount = (initState MAX_PEERS []).peerCount + 1 :=
  ⟨_, rfl, by decide, by decide, by decide⟩

/-- C12, amended: `OnDataRecv` has no self-filter, the code never looks up the node's
own address.  A frame whose source address is the node's own address `self` is handled
like any other: `self` is passed to `addPeerIfNew`, so it is appended to the peer table
when it is not there yet, the table has room and registration succeeds, and the table is
left as it is otherwise only because `addPeerIfNew` rejects it. -/
theorem C12_no_self_filter (self : Mac) (s : State) (incomingData : Nat → Byte) (len : Int)
    (addOk : Bool) (hb : InBounds MAX_PEERS s) :
    ∃ r s1 s2, addPeerIfNew MAX_PEERS self addOk s = some (r, s1) ∧
      OnDataRecv MAX_PEERS self incomingData len addOk s = some s2 ∧
      s2.table = s1.table ∧ s2.peerCount = s1.peerCount ∧
      (self ∉ s.table → s.peerCount < (MAX_PEERS : Int) → addOk = true →
        s2.table = s.table ++ [self] ∧ self ∈ s2.table) := by
  obtain ⟨r, s1, e, _, _, _, _⟩ := addPeerIfNew_summary MAX_PEERS self addOk s hb
  have hadm : self ∉ s.table → s.peerCount < (MAX_PEERS : Int) → addOk = true →
      s1.table = s.table ++ [self] ∧ self ∈ s1.table := by
    intro ha hroom hok
    subst hok
    obtain ⟨s1', e', _, ht', _⟩ := addPeerIfNew_admit MAX_PEERS self s hb hroom ha
    rw [e] at e'
    obtain ⟨_, rfl⟩ : r = true ∧ s1 = s1' := by simpa using e'
    exact ⟨ht', by simp [ht']⟩
  by_cases hm : (memcpyMessageData incomingData).messageType = 0
  · exact ⟨r, s1, s1, e, by simp [OnDataRecv, e, hm], rfl, rfl, hadm⟩
  · exact ⟨r, s1, digitalWrite LED_PIN (memcpyMessageData incomingData).ledState s1, e,
      by simp [OnDataRecv, e, hm], rfl, rfl, hadm⟩

/-- C12, amended, at a data frame from the node's own address on the empty table. -/
theorem C12_no_self_filter_witness :
    InBounds MAX_PEERS (initState MAX_PEERS []) ∧
    selfAddr ∉ (initState MAX_PEERS []).table ∧
    (initState MAX_PEERS []).peerCount < (MAX_PEERS : Int) ∧
    ∃ r s1 s2, addPeerIfNew MAX_PEERS selfAddr true (initState MAX_PEERS []) = some (r, s1) ∧
      OnDataRecv MAX_PEERS selfAddr dataFrame (sizeofMessageData : Int) true
        (initState MAX_PEERS []) = some s2 ∧
      s2.table = s1.table ∧ s2.peerCount = s1.peerCount ∧
      s2.table = (initState MAX_PEERS []).table ++ [selfAddr] ∧ selfAddr ∈ s2.table :=
  ⟨by decide, by decide, by decide, by
    obtain ⟨r, s1, s2, h1, h2, h3, h4, h5⟩ :=
      C12_no_self_filter selfAddr (initState MAX_PEERS []) dataFrame
        (sizeofMessageData : Int) true (by decide)
    exact ⟨r, s1, s2, h1, h2, h3, h4, (h5 (by decide) (by decide) rfl).1,
      (h5 (by decide) (by decide) rfl).2⟩⟩

/-- C16: for a frame whose `messageType` byte (offset 0) is 1, received from an address
`X`, `OnDataRecv` returns and its last act is `digitalWrite(LED_PIN, ledState)`, the
level being high exactly when the `ledState` byte of the frame (offset 40) is not zero,
whatever `addPeerIfNew(X)` returned and did: the state is the one `addPeerIfNew` left,
with that one call added to the trace.  When `X` is not in the table, the table has room
and registration succeeds, `addPeerIfNew` returns `true` and `X` is in the table
afterwards. -/
theorem C16_data_frame_drives_led (s : State) (X : Mac) (incomingData : Nat → Byte)
    (len : Int) (addOk : Bool) (hb : InBounds MAX_PEERS s) (ht : incomingData 0 = 1) :
    ∃ r s1 s2, addPeerIfNew MAX_PEERS X addOk s = some (r, s1) ∧
      OnDataRecv MAX_PEERS X incomingData len addOk s = some s2 ∧
      s2.trace = s1.trace ++ [Event.digitalWrite LED_PIN (decide (incomingData 40 ≠ 0))] ∧
      s2.peerAddresses = s1.peerAddresses ∧ s2.peerCount = s1.peerCount ∧
      s2.registered = s1.registered ∧
      (X ∉ s.table → s.peerCount < (MAX_PEERS : Int) → addOk = true →
        r = true ∧ X ∈ s2.table) := by
  have ht0 : incomingData 0 ≠ 0 := by
    rw [ht]; decide
  obtain ⟨r, s1, e, _, e2, hadm⟩ :=
    OnDataRecv_nonzero MAX_PEERS s X incomingData len addOk hb ht0
  refine ⟨r, s1, _, e, e2, rfl, rfl, rfl, rfl, ?_⟩
  intro ha hroom hok
  refine ⟨(hadm ha hroom hok).1, ?_⟩
  show X ∈ s1.table
  rw [(hadm ha hroom hok).2]
  simp

/-- C16 at data frames from `A`, for the four outcomes of the admission with the
`ledState` byte 1 (LED driven high): admitted (empty table), already present (table
`[A]`), table full, registration refused; and with the `ledState` byte 0 on the empty
table (LED driven low, `A` admitted). -/
theorem C16_data_frame_drives_led_witness :
    (InBounds MAX_PEERS (initState MAX_PEERS []) ∧ dataFrame 0 = 1 ∧ dataFrame 40 ≠ 0 ∧
      ∃ s2, OnDataRecv MAX_PEERS addrA dataFrame (sizeofMessageData : Int) true
          (initState MAX_PEERS []) = some s2 ∧
        s2.trace.getLast? = some (Event.digitalWrite LED_PIN true) ∧ addrA ∈ s2.table) ∧
    (InBounds MAX_PEERS (stateOf MAX_PEERS [addrA]) ∧
      ∃ s2, OnDataRecv MAX_PEERS addrA dataFrame (sizeofMessageData : Int) true
          (stateOf MAX_PEERS [addrA]) = some s2 ∧
        s2.trace.getLast? = some (Event.digitalWrite LED_PIN true)) ∧
    (InBounds MAX_PEERS fullState ∧
      ∃ s2, OnDataRecv MAX_PEERS addrA dataFrame (sizeofMessageData : Int) true
          fullState = some s2 ∧
        s2.trace.getLast? = some (Event.digitalWrite LED_PIN true)) ∧
    (∃ s2, OnDataRecv MAX_PEERS addrA dataFrame (sizeofMessageData : Int) false
          (initState MAX_PEERS []) = some s2 ∧
        s2.trace.getLast? = some (Event.digitalWrite LED_PIN true)) ∧
    (dataFrameLedOff 0 = 1 ∧ dataFrameLedOff 40 = 0 ∧
      ∃ s2, OnDataRecv MAX_PEERS addrA dataFrameLedOff (sizeofMessageData : Int) true
          (initState MAX_PEERS []) = some s2 ∧
        s2.trace.getLast? = some (Event.digitalWrite LED_PIN false) ∧ addrA ∈ s2.table) := by
  have hon : decide (dataFrame 40 ≠ 0) = true := by decide
  have hoff : decide (dataFrameLedOff 40 ≠ 0) = false := by decide
  refine ⟨⟨by decide, by decide, by decide, ?_⟩, ⟨by decide, ?_⟩, ⟨by decide, ?_⟩, ?_,
    ⟨by decide, by decide, ?_⟩⟩
  · obtain ⟨r, s1, s2, _, h2, h3, _, _, _, h5⟩ :=
      C16_data_frame_drives_led (initState MAX_PEERS []) addrA dataFrame
        (sizeofMessageData : Int) true (by decide) (by decide)
    exact ⟨s2, h2, by rw [h3, hon]; simp, (h5 (by decide) (by decide) rfl).2⟩
  · obtain ⟨r, s1, s2, _, h2, h3, _⟩ :=
      C16_data_frame_drives_led (stateOf MAX_PEERS [addrA]) addrA dataFrame
        (sizeofMessageData : Int) true (by decide) (by decide)
    exact ⟨s2, h2, by rw [h3, hon]; simp⟩
  · obtain ⟨r, s1, s2, _, h2, h3, _⟩ :=
      C16_data_frame_drives_led fullState addrA dataFrame
        (sizeofMessageData : Int) true (by decide) (by decide)
    exact ⟨s2, h2, by rw [h3, hon]; simp⟩
  · obtain ⟨r, s1, s2, _, h2, h3, _⟩ :=
      C16_data_frame_drives_led (initState MAX_PEERS []) addrA dataFrame
        (sizeofMessageData : Int) false (by decide) (by decide)
    exact ⟨s2, h2, by rw [h3, hon]; simp⟩
  · obtain ⟨r, s1, s2, _, h2, h3, _, _, _, h5⟩ :=
      C16_data_frame_drives_led (initState MAX_PEERS []) addrA dataFrameLedOff
        (sizeofMessageData : Int) true (by decide) (by decide)
    exact ⟨s2, h2, by rw [h3, hoff]; simp, (h5 (by decide) (by decide) rfl).2⟩

/-! ## The scheduler -/

/-- C13, as stated, fails: with `lastData = 0` the tick at `now = 2000`, when the elapsed
time has reached the data interval, sends nothing and leaves `lastData` and `counter` as
they are; and with `lastDiscovery = 0` the tick at `now = 5000` sends no discovery
message and leaves `lastDiscovery` as it is. -/
theorem C13_tick_at_interval_does_not_fire :
    (usub32 2000 (nodeOf [addrA] 0 0).lastData ≥ 2000 ∧
      ∃ n1, loop 2000 temp20 (nodeOf [addrA] 0 0) = some n1 ∧
        n1.lastData = 0 ∧ n1.counter = 0 ∧ n1.st.trace = []) ∧
    (usub32 5000 (nodeOf [addrA] 0 4000).lastDiscovery ≥ 5000 ∧
      ∃ n1, loop 5000 temp20 (nodeOf [addrA] 0 4000) = some n1 ∧
        n1.lastDiscovery = 0 ∧ n1.st.trace = []) :=
  ⟨⟨by decide, _, rfl, by decide, by decide, by decide⟩,
    ⟨by decide, _, rfl, by decide, by decide⟩⟩

/-- C13, amended: a scheduled send fires exactly when the elapsed time is strictly
greater than its interval.  One pass of `loop()` returns; it sends the data message to
every table entry, sets `lastData = now` and increments `counter` (a 32-bit `int`:
after `INT_MAX` comes `INT_MIN`) when `now - lastData > 2000` (in 32-bit unsigned
arithmetic) and does none of this otherwise;
it sends the discovery message to the broadcast address and sets `lastDiscovery = now`
when `now - lastDiscovery > 5000` and does none of this otherwise.  In particular a tick
at which exactly 2000 ms have elapsed does not fire the data send. -/
theorem C13_fires_strictly_after_interval (now : Nat) (temperature : List Byte) (n : Node)
    (hlen : n.st.peerCount.toNat ≤ n.st.peerAddresses.length) :
    ∃ n1, loop now temperature n = some n1 ∧
      n1.st.trace = n.st.trace ++
        (if usub32 now n.lastDiscovery > 5000 then
          [Event.esp_now_send broadcastAddress (discoveryMessage n)] else []) ++
        (if usub32 now n.lastData > 2000 then
          n.st.table.map (fun p => Event.esp_now_send p (dataMessage temperature n))
         else []) ∧
      n1.lastData = (if usub32 now n.lastData > 2000 then now else n.lastData) ∧
      n1.counter =
        (if usub32 now n.lastData > 2000 then wrapInt32 (n.counter + 1) else n.counter) ∧
      n1.lastDiscovery =
        (if usub32 now n.lastDiscovery > 5000 then now else n.lastDiscovery) ∧
      (usub32 now n.lastData = 2000 →
        n1.lastData = n.lastData ∧ n1.counter = n.counter ∧
        n1.st.trace = n.st.trace ++
          (if usub32 now n.lastDiscovery > 5000 then
            [Event.esp_now_send broadcastAddress (discoveryMessage n)] else [])) := by
  refine ⟨_, loop_spec now temperature n hlen, rfl, rfl, rfl, rfl, ?_⟩
  intro h
  have hn : ¬ usub32 now n.lastData > 2000 := by omega
  exact ⟨by simp [hn], by simp [hn], by simp [hn]⟩

/-- C13, amended, from `lastData = 0` with the table `[A]`: the tick at `now = 2000`
does not fire, the tick at `now = 2001` fires the data send once, and from
`lastData = 2001` the tick at `now = 4002` fires it once; with `counter = INT_MAX` the
tick at `now = 2001` leaves `counter = INT_MIN`. -/
theorem C13_fires_strictly_after_interval_witness :
    (nodeOf [addrA] 0 0).st.peerCount.toNat ≤ (nodeOf [addrA] 0 0).st.peerAddresses.length ∧
    (∃ n1, loop 2000 temp20 (nodeOf [addrA] 0 0) = some n1 ∧
      n1.st.trace = [] ∧ n1.lastData = 0 ∧ n1.counter = 0) ∧
    (∃ n1, loop 2001 temp20 (nodeOf [addrA] 0 0) = some n1 ∧
      n1.st.trace = [Event.esp_now_send addrA (dataMessage temp20 (nodeOf [addrA] 0 0))] ∧
      n1.lastData = 2001 ∧ n1.counter = 1) ∧
    (∃ n1, loop 4002 temp20 (nodeOf [addrA] 0 2001) = some n1 ∧
      n1.st.trace = [Event.esp_now_send addrA (dataMessage temp20 (nodeOf [addrA] 0 2001))] ∧
      n1.lastData = 4002) ∧
    (∃ n1, loop 2001 temp20 { nodeOf [addrA] 0 0 with counter := 2147483647 } = some n1 ∧
      n1.lastData = 2001 ∧ n1.counter = -2147483648) := by
  refine ⟨by decide, ?_, ?_, ?_, ?_⟩
  · obtain ⟨n1, h1, h2, h3, h4, _, _⟩ :=
      C13_fires_strictly_after_interval 2000 temp20 (nodeOf [addrA] 0 0) (by decide)
    exact ⟨n1, h1, by rw [h2]; decide, by rw [h3]; decide, by rw [h4]; decide⟩
  · obtain ⟨n1, h1, h2, h3, h4, _, _⟩ :=
      C13_fires_strictly_after_interval 2001 temp20 (nodeOf [addrA] 0 0) (by decide)
    exact ⟨n1, h1, by rw [h2]; decide, by rw [h3]; decide, by rw [h4]; decide⟩
  · obtain ⟨n1, h1, h2, h3, _, _, _⟩ :=
      C13_fires_strictly_after_interval 4002 temp20 (nodeOf [addrA] 0 2001) (by decide)
    exact ⟨n1, h1, by rw [h2]; decide, by rw [h3]; decide⟩
  · obtain ⟨n1, h1, _, h3, h4, _, _⟩ :=
      C13_fires_strictly_after_interval 2001 temp20
        { nodeOf [addrA] 0 0 with counter := 2147483647 } (by decide)
    exact ⟨n1, h1, by rw [h3]; decide, by rw [h4]; decide⟩

/-- C14, as stated, fails.  `setup()` runs with the registration of the broadcast peer
refused; a data frame whose source address is `FF:FF:FF:FF:FF:FF` then arrives and
`addPeerIfNew` admits that address; at the next data tick `loop()` addresses a message
with `messageType = 1` to the broadcast destination. -/
theorem C14_data_send_to_broadcast_entry :
    ∃ s1, OnDataRecv MAX_PEERS broadcastAddress dataFrame (sizeofMessageData : Int) true
        (setup true false 0x1234 (bootNode MAX_PEERS)).st = some s1 ∧
      s1.table = [broadcastAddress] ∧
      usub32 2001 (setup true false 0x1234 (bootNode MAX_PEERS)).lastData > 2000 ∧
      ∃ n1 data, loop 2001 temp20
          { setup true false 0x1234 (bootNode MAX_PEERS) with st := s1 } = some n1 ∧
        data.messageType = 1 ∧
        Event.esp_now_send broadcastAddress data ∈ n1.st.trace :=
  ⟨_, rfl, by decide, by decide, _,
    dataMessage temp20 (setup true false 0x1234 (bootNode MAX_PEERS)), rfl, rfl, by decide⟩

/-- C14, amended: on a tick where the data check fires, the data sends of `loop()` are
one send per peer-table entry, addressed to the entries `0 .. peerCount - 1` in table
order and all carrying the same message, whose `messageType` is 1; they follow the
discovery send if there is one.  Every data send is addressed to a table entry, so the
broadcast destination gets one only when it is itself an entry of the table.  The table
(`peerAddresses` and `peerCount`) is not modified. -/
theorem C14_data_sends_follow_table (now : Nat) (temperature : List Byte) (n : Node)
    (hlen : n.st.peerCount.toNat ≤ n.st.peerAddresses.length)
    (hfire : usub32 now n.lastData > 2000) :
    ∃ n1 data, loop now temperature n = some n1 ∧
      data.messageType = 1 ∧
      n1.st.trace = n.st.trace ++
        (if usub32 now n.lastDiscovery > 5000 then
          [Event.esp_now_send broadcastAddress (discoveryMessage n)] else []) ++
        n.st.table.map (fun p => Event.esp_now_send p data) ∧
      (∀ i : Nat, (i : Int) < n.st.peerCount →
        (n.st.table.map (fun p => Event.esp_now_send p data))[i]? =
          n.st.peerAddresses[i]?.map (fun p => Event.esp_now_send p data)) ∧
      (n.st.table.map (fun p => Event.esp_now_send p data)).length = n.st.table.length ∧
      (∀ p, Event.esp_now_send p data ∈ n.st.table.map (fun q => Event.esp_now_send q data) →
        p ∈ n.st.table) ∧
      (broadcastAddress ∉ n.st.table →
        Event.esp_now_send broadcastAddress data ∉
          n.st.table.map (fun q => Event.esp_now_send q data)) ∧
      n1.st.peerAddresses = n.st.peerAddresses ∧ n1.st.peerCount = n.st.peerCount ∧
      n1.st.table = n.st.table ∧ n1.lastData = now := by
  have hmem : ∀ p, Event.esp_now_send p (dataMessage temperature n) ∈
      n.st.table.map (fun q => Event.esp_now_send q (dataMessage temperature n)) →
      p ∈ n.st.table := by
    intro p hp
    obtain ⟨q, hq, he⟩ := List.mem_map.mp hp
    have : q = p := by injection he
    rw [← this]; exact hq
  refine ⟨_, dataMessage temperature n, loop_spec now temperature n hlen, rfl, ?_, ?_, ?_,
    hmem, fun hb h => hb (hmem _ h), rfl, rfl, rfl, ?_⟩
  · simp [hfire]
  · intro i hi
    have hi2 : i < n.st.peerCount.toNat := by omega
    simp [State.table, List.getElem?_take, hi2]
  · simp
  · simp [hfire]

/-- C14, amended, at the table `[A, B]` with only the data check firing. -/
theorem C14_data_sends_follow_table_witness :
    (nodeOf [addrA, addrB] 2001 0).st.peerCount.toNat ≤
      (nodeOf [addrA, addrB] 2001 0).st.peerAddresses.length ∧
    usub32 2001 (nodeOf [addrA, addrB] 2001 0).lastData > 2000 ∧
    ∃ n1 data, loop 2001 temp20 (nodeOf [addrA, addrB] 2001 0) = some n1 ∧
      data.messageType = 1 ∧
      n1.st.trace = [Event.esp_now_send addrA data, Event.esp_now_send addrB data] ∧
      n1.st.table = [addrA, addrB] := by
  refine ⟨by decide, by decide, ?_⟩
  obtain ⟨n1, data, h1, h2, h3, _, _, _, _, _, _, h10, _⟩ :=
    C14_data_sends_follow_table 2001 temp20 (nodeOf [addrA, addrB] 2001 0) (by decide)
      (by decide)
  refine ⟨n1, data, h1, h2, ?_, ?_⟩
  · rw [h3]
    have hd : ¬ usub32 2001 (nodeOf [addrA, addrB] 2001 0).lastDiscovery > 5000 := by decide
    have ht : (nodeOf [addrA, addrB] 2001 0).st.table = [addrA, addrB] := by decide
    have h0 : (nodeOf [addrA, addrB] 2001 0).st.trace = [] := by decide
    rw [if_neg hd, ht, h0]
    rfl
  · rw [h10]; decide

/-- C15: on a tick where the discovery check fires, whatever the peer table holds,
`loop()` returns and sends exactly one message with `messageType = 0`, addressed to
`FF:FF:FF:FF:FF:FF`, and sets `lastDiscovery = now`; everything else it sends is a data
message with `messageType = 1`.  Whether the data check fires is decided by
`now - lastData > 2000` alone: the data sends, `lastData` and `counter` (a 32-bit `int`,
incremented with wrap-around) are what they would be had the discovery check not fired;
when both fire, `lastDiscovery` and `lastData` are both `now`. -/
theorem C15_discovery_independent_of_data (now : Nat) (temperature : List Byte) (n : Node)
    (hlen : n.st.peerCount.toNat ≤ n.st.peerAddresses.length)
    (hdisc : usub32 now n.lastDiscovery > 5000) :
    ∃ n1 msg dataSends, loop now temperature n = some n1 ∧
      n1.st.trace = n.st.trace ++ [Event.esp_now_send broadcastAddress msg] ++ dataSends ∧
      msg.messageType = 0 ∧
      broadcastAddress = ⟨0xFF, 0xFF, 0xFF, 0xFF, 0xFF, 0xFF⟩ ∧
      (∀ e ∈ dataSends, ∃ p d, e = Event.esp_now_send p d ∧ d.messageType = 1) ∧
      n1.lastDiscovery = now ∧
      dataSends = (if usub32 now n.lastData > 2000 then
        n.st.table.map (fun p => Event.esp_now_send p (dataMessage temperature n))
        else []) ∧
      n1.lastData = (if usub32 now n.lastData > 2000 then now else n.lastData) ∧
      n1.counter =
        (if usub32 now n.lastData > 2000 then wrapInt32 (n.counter + 1) else n.counter) ∧
      (usub32 now n.lastData > 2000 → n1.lastDiscovery = now ∧ n1.lastData = now) ∧
      (∀ last : Nat, ∃ n2, loop now temperature { n with lastDiscovery := last } = some n2 ∧
        n2.lastData = n1.lastData ∧ n2.counter = n1.counter ∧
        ∃ pre, n2.st.trace = n.st.trace ++ pre ++ dataSends ∧
          pre = (if usub32 now last > 5000 then
            [Event.esp_now_send broadcastAddress msg] else [])) := by
  refine ⟨_, discoveryMessage n, _, loop_spec now temperature n hlen, ?_, rfl, rfl, ?_, ?_,
    rfl, rfl, rfl, ?_, ?_⟩
  · simp [hdisc]
  · intro e he
    split at he
    · obtain ⟨p, _, hp⟩ := List.mem_map.mp he
      exact ⟨p, _, hp.symm, rfl⟩
    · simp at he
  · simp [hdisc]
  · intro hdata
    simp [hdisc, hdata]
  · intro last
    refine ⟨_, loop_spec now temperature { n with lastDiscovery := last } hlen, rfl, rfl, _,
      rfl, rfl⟩

/-- C15 on the empty table with only the discovery check firing, and on the table `[A]`
with both checks firing. -/
theorem C15_discovery_independent_of_data_witness :
    (usub32 5001 (nodeOf [] 0 5000).lastDiscovery > 5000 ∧
      ∃ n1 msg, loop 5001 temp20 (nodeOf [] 0 5000) = some n1 ∧
        n1.st.trace = [Event.esp_now_send broadcastAddress msg] ∧ msg.messageType = 0 ∧
        n1.lastDiscovery = 5001 ∧ n1.lastData = 5000) ∧
    (usub32 5001 (nodeOf [addrA] 0 0).lastDiscovery > 5000 ∧
      ∃ n1 msg, loop 5001 temp20 (nodeOf [addrA] 0 0) = some n1 ∧
        n1.st.trace = [Event.esp_now_send broadcastAddress msg,
          Event.esp_now_send addrA (dataMessage temp20 (nodeOf [addrA] 0 0))] ∧
        msg.messageType = 0 ∧ n1.lastDiscovery = 5001 ∧ n1.lastData = 5001) := by
  refine ⟨⟨by decide, ?_⟩, ⟨by decide, ?_⟩⟩
  · obtain ⟨n1, msg, ds, h1, h2, h3, _, _, h6, h7, h8, _, _, _⟩ :=
      C15_discovery_independent_of_data 5001 temp20 (nodeOf [] 0 5000) (by decide) (by decide)
    have hd : ¬ usub32 5001 (nodeOf [] 0 5000).lastData > 2000 := by decide
    rw [if_neg hd] at h7 h8
    have h0 : (nodeOf [] 0 5000).st.trace = [] := by decide
    exact ⟨n1, msg, h1, by rw [h2, h7, h0]; rfl, h3, h6, by rw [h8]; decide⟩
  · obtain ⟨n1, msg, ds, h1, h2, h3, _, _, h6, h7, _, _, h10, _⟩ :=
      C15_discovery_independent_of_data 5001 temp20 (nodeOf [addrA] 0 0) (by decide)
        (by decide)
    have hd : usub32 5001 (nodeOf [addrA] 0 0).lastData > 2000 := by decide
    rw [if_pos hd] at h7
    have h0 : (nodeOf [addrA] 0 0).st.trace = [] := by decide
    have ht : (nodeOf [addrA] 0 0).st.table = [addrA] := by decide
    exact ⟨n1, msg, h1, by rw [h2, h7, h0, ht]; rfl, h3, h6, (h10 hd).2⟩

theorem usub32_add (last d : Nat) (hd : d < 4294967296) :
    usub32 ((last + d) % 4294967296) last = d := by
  unfold usub32
  omega

/-- C19: in 32-bit unsigned arithmetic, for every `lastData` and every true elapsed time
`d < 2 ^ 32`, when `currentTime = (lastData + d) mod 2 ^ 32` the difference
`currentTime - lastData` that `loop()` computes is `d`, whether or not `millis()` wrapped
in between; so one pass of `loop()` at that time fires the data send (and increments
`counter`, a 32-bit `int`, with wrap-around) exactly when `d > 2000`.  Likewise for `lastDiscovery`: at
`currentTime = (lastDiscovery + d) mod 2 ^ 32` the discovery message is sent exactly when
`d > 5000`. -/
theorem C19_elapsed_across_rollover (temperature : List Byte) (n : Node) (d : Nat)
    (hlen : n.st.peerCount.toNat ≤ n.st.peerAddresses.length) (hd : d < 4294967296) :
    usub32 ((n.lastData + d) % 4294967296) n.lastData = d ∧
    usub32 ((n.lastDiscovery + d) % 4294967296) n.lastDiscovery = d ∧
    (∃ n1 pre, loop ((n.lastData + d) % 4294967296) temperature n = some n1 ∧
      n1.counter = (if d > 2000 then wrapInt32 (n.counter + 1) else n.counter) ∧
      n1.lastData = (if d > 2000 then (n.lastData + d) % 4294967296 else n.lastData) ∧
      n1.st.trace = n.st.trace ++ pre ++
        (if d > 2000 then
          n.st.table.map (fun p => Event.esp_now_send p (dataMessage temperature n))
         else [])) ∧
    (∃ n1 post, loop ((n.lastDiscovery + d) % 4294967296) temperature n = some n1 ∧
      n1.lastDiscovery =
        (if d > 5000 then (n.lastDiscovery + d) % 4294967296 else n.lastDiscovery) ∧
      n1.st.trace = n.st.trace ++
        (if d > 5000 then [Event.esp_now_send broadcastAddress (discoveryMessage n)]
         else []) ++ post) := by
  have e1 := usub32_add n.lastData d hd
  have e2 := usub32_add n.lastDiscovery d hd
  refine ⟨e1, e2,
    ⟨_, (if usub32 ((n.lastData + d) % 4294967296) n.lastDiscovery > 5000 then
        [Event.esp_now_send broadcastAddress (discoveryMessage n)] else []),
      loop_spec _ temperature n hlen, ?_, ?_, ?_⟩,
    ⟨_, (if usub32 ((n.lastDiscovery + d) % 4294967296) n.lastData > 2000 then
        n.st.table.map (fun p => Event.esp_now_send p (dataMessage temperature n)) else []),
      loop_spec _ temperature n hlen, ?_, ?_⟩⟩
  · simp only [e1]
  · simp only [e1]
  · simp only [e1]
  · simp only [e2]
  · simp only [e2]

/-- C19 with `lastData = lastDiscovery = 2 ^ 32 - 296` and an elapsed time of 2500 ms,
across the rollover: `currentTime = 2204`, the data send fires and the discovery send
does not. -/
theorem C19_elapsed_across_rollover_witness :
    (nodeOf [addrA] 4294967000 4294967000).st.peerCount.toNat ≤
      (nodeOf [addrA] 4294967000 4294967000).st.peerAddresses.length ∧
    (2500 : Nat) < 4294967296 ∧
    ((nodeOf [addrA] 4294967000 4294967000).lastData + 2500) % 4294967296 = 2204 ∧
    usub32 (((nodeOf [addrA] 4294967000 4294967000).lastData + 2500) % 4294967296)
      (nodeOf [addrA] 4294967000 4294967000).lastData = 2500 ∧
    ∃ n1, loop 2204 temp20 (nodeOf [addrA] 4294967000 4294967000) = some n1 ∧
      n1.counter = 1 ∧ n1.lastData = 2204 ∧ n1.lastDiscovery = 4294967000 := by
  have h := C19_elapsed_across_rollover temp20 (nodeOf [addrA] 4294967000 4294967000) 2500
    (by decide) (by decide)
  refine ⟨by decide, by decide, by decide, h.1, ?_⟩
  obtain ⟨n1, _, h1, h2, h3, _⟩ := h.2.2.1
  obtain ⟨n2, _, g1, g2, _⟩ := h.2.2.2
  have e : ((nodeOf [addrA] 4294967000 4294967000).lastData + 2500) % 4294967296 = 2204 := by
    decide
  have e' : ((nodeOf [addrA] 4294967000 4294967000).lastDiscovery + 2500) % 4294967296
      = 2204 := by decide
  rw [e] at h1 h3
  rw [e'] at g1 g2
  rw [h1] at g1
  obtain rfl : n1 = n2 := by simpa using g1
  exact ⟨n1, h1, by rw [h2]; decide, by rw [h3]; decide, by rw [g2]; decide⟩

/-! ## The codec, start-up and array bounds -/

theorem map_range_eq (l : List Byte) (k : Nat) (f : Nat → Byte) (hl : l.length = k)
    (hf : ∀ i, i < k → f i = l.getD i 0) : (List.range k).map f = l := by
  apply List.ext_getElem
  · simp [hl]
  · intro i h1 h2
    have hi : i < k := by simpa using h1
    simp only [List.getElem_map, List.getElem_range]
    rw [hf i hi, List.getD_eq_getElem?_getD, List.getElem?_eq_getElem h2]
    rfl

/-- C17: for every record `m` whose arrays have their declared sizes, whatever bytes its
two text fields hold (a zero byte or none) and whatever the padding holds, reading the
`sizeof(MessageData)` bytes of `m` back with the `memcpy` of `OnDataRecv` gives `m`
again: the same `messageType`, `nodeName`, `temperature`, `ledState` and `message`. -/
theorem C17_codec_round_trip (m : MessageData) (pad : Nat → Byte) (hm : m.WellFormed) :
    memcpyMessageData (m.bytes pad) = m ∧
    (memcpyMessageData (m.bytes pad)).messageType = m.messageType ∧
    (memcpyMessageData (m.bytes pad)).nodeName = m.nodeName ∧
    (memcpyMessageData (m.bytes pad)).temperature = m.temperature ∧
    (memcpyMessageData (m.bytes pad)).ledState = m.ledState ∧
    (memcpyMessageData (m.bytes pad)).message = m.message := by
  obtain ⟨h1, h2, h3⟩ := hm
  have e1 : (List.range 32).map (fun i => m.bytes pad (1 + i)) = m.nodeName := by
    apply map_range_eq _ _ _ h1
    intro i hi
    have c1 : ¬ (1 + i = 0) := by omega
    have c2 : 1 + i < 33 := by omega
    have c3 : 1 + i - 1 = i := by omega
    simp only [MessageData.bytes, if_neg c1, if_pos c2, c3]
  have e2 : (List.range 4).map (fun i => m.bytes pad (36 + i)) = m.temperature := by
    apply map_range_eq _ _ _ h2
    intro i hi
    have c1 : ¬ (36 + i = 0) := by omega
    have c2 : ¬ (36 + i < 33) := by omega
    have c3 : ¬ (36 + i < 36) := by omega
    have c4 : 36 + i < 40 := by omega
    have c5 : 36 + i - 36 = i := by omega
    simp only [MessageData.bytes, if_neg c1, if_neg c2, if_neg c3, if_pos c4, c5]
  have e3 : (List.range 32).map (fun i => m.bytes pad (41 + i)) = m.message := by
    apply map_range_eq _ _ _ h3
    intro i hi
    have c1 : ¬ (41 + i = 0) := by omega
    have c2 : ¬ (41 + i < 33) := by omega
    have c3 : ¬ (41 + i < 36) := by omega
    have c4 : ¬ (41 + i < 40) := by omega
    have c5 : ¬ (41 + i = 40) := by omega
    have c6 : 41 + i < 73 := by omega
    have c7 : 41 + i - 41 = i := by omega
    simp only [MessageData.bytes, if_neg c1, if_neg c2, if_neg c3, if_neg c4, if_neg c5,
      if_pos c6, c7]
  have e4 : decide (m.bytes pad 40 ≠ 0) = m.ledState := by
    cases hl : m.ledState <;> simp [MessageData.bytes, hl]
  have e0 : m.bytes pad 0 = m.messageType := by simp [MessageData.bytes]
  have e : memcpyMessageData (m.bytes pad) = m := by
    cases m
    simp only [memcpyMessageData] at *
    simp only [e0, e1, e2, e3, e4]
  exact ⟨e, by rw [e], by rw [e], by rw [e], by rw [e], by rw [e]⟩

/-- C17 at a record whose `nodeName` and `message` are filled to the last byte with
non-zero bytes. -/
theorem C17_codec_round_trip_witness :
    fullMessage.WellFormed ∧ (0 : Byte) ∉ fullMessage.nodeName ∧
    (0 : Byte) ∉ fullMessage.message ∧
    memcpyMessageData (fullMessage.bytes (fun _ => 0xEE)) = fullMessage :=
  ⟨by decide, by decide, by decide,
    (C17_codec_round_trip fullMessage (fun _ => 0xEE) (by decide)).1⟩

/-- C18, the code at the failing input: `esp_now_init()` fails in `setup()`, which
returns at once (no callback registered, no broadcast peer, no node name); `loop()`
runs all the same, and the pass at `millis() = 5001` calls `esp_now_send` for a
discovery message to the broadcast address and runs the data branch (`counter`,
`lastData` and `ledState` change, with no peer to send to). -/
theorem C18_loop_runs_after_failed_init :
    setup false true 0x1234 (bootNode MAX_PEERS) = bootNode MAX_PEERS ∧
    (setup false true 0x1234 (bootNode MAX_PEERS)).callbacksRegistered = false ∧
    ∃ n1, loop 5001 temp20 (setup false true 0x1234 (bootNode MAX_PEERS)) = some n1 ∧
      n1.st.trace =
        [Event.esp_now_send broadcastAddress (discoveryMessage (bootNode MAX_PEERS))] ∧
      n1.lastDiscovery = 5001 ∧ n1.lastData = 5001 ∧ n1.counter = 1 ∧
      n1.sentData.ledState = true :=
  ⟨by decide, by decide, _, rfl, by decide, by decide, by decide, by decide, by decide⟩

/-- C20: under the invariant (`peerAddresses` has its `MAX_PEERS` slots and
`0 ≤ peerCount ≤ MAX_PEERS`) no access to `peerAddresses` leaves the array.  The
membership scan, `OnDataSent` (search and shift) and the send loop of `loop()` succeed
even on the array cut down to its first `peerCount` slots, so they touch indices below
`peerCount` only.  `addPeerIfNew` writes slot `peerCount` only when
`peerCount < MAX_PEERS`, where that slot exists; on a full table the slot does not exist
and nothing is written.  After `OnDataSent` `peerCount` is still non-negative, and both
functions hand back a state under the invariant; every state reached from the empty
table is under the invariant. -/
theorem C20_indexing_in_bounds (s : State) (mac : Mac) (addOk : Bool)
    (status : esp_now_send_status_t) (data : MessageData) (hb : InBounds MAX_PEERS s) :
    (∃ b, addPeerIfNew.scan s.table mac 0 s.peerCount.toNat = some b) ∧
    (∃ r s1, addPeerIfNew MAX_PEERS mac addOk s = some (r, s1) ∧ InBounds MAX_PEERS s1) ∧
    (s.peerCount < (MAX_PEERS : Int) →
      ∃ arr, writeSlot s.peerAddresses s.peerCount mac = some arr) ∧
    (s.peerCount = (MAX_PEERS : Int) →
      writeSlot s.peerAddresses s.peerCount mac = none ∧
      addPeerIfNew MAX_PEERS mac addOk s = some (false, s)) ∧
    (∃ s1, OnDataSent mac status { s with peerAddresses := s.table } = some s1 ∧
      0 ≤ s1.peerCount) ∧
    (∃ s1, OnDataSent mac status s = some s1 ∧ InBounds MAX_PEERS s1) ∧
    (∃ s1, loop.sendAll data 0 s.peerCount.toNat { s with peerAddresses := s.table } =
      some s1) ∧
    (∀ (calls : List Call) (registered : List Mac),
      ∃ s1, run MAX_PEERS calls (initState MAX_PEERS registered) = some s1 ∧
        InBounds MAX_PEERS s1) := by
  obtain ⟨hl, h0, hle⟩ := hb
  have htl : s.table.length = s.peerCount.toNat := table_length MAX_PEERS s ⟨hl, h0, hle⟩
  have hcut : InBounds s.peerCount.toNat { s with peerAddresses := s.table } :=
    ⟨htl, h0, by show s.peerCount ≤ ((s.peerCount.toNat : Nat) : Int); omega⟩
  refine ⟨?_, ?_, ?_, ?_, ?_, ?_, ?_, ?_⟩
  · exact ⟨_, scan_eq s.table mac s.peerCount.toNat 0 (by omega)⟩
  · obtain ⟨r, s1, e, hb1, _⟩ := addPeerIfNew_summary MAX_PEERS mac addOk s ⟨hl, h0, hle⟩
    exact ⟨r, s1, e, hb1⟩
  · intro hroom
    have : s.peerCount.toNat < s.peerAddresses.length := by omega
    exact ⟨s.peerAddresses.set s.peerCount.toNat mac, by simp [writeSlot, h0, this]⟩
  · intro hfull
    have : ¬ s.peerCount.toNat < s.peerAddresses.length := by omega
    exact ⟨by simp [writeSlot, this],
      addPeerIfNew_full MAX_PEERS mac addOk s (by omega) (by omega)⟩
  · obtain ⟨s1, e, hb1, _⟩ := OnDataSent_summary s.peerCount.toNat mac status _ hcut
    exact ⟨s1, e, hb1.2.1⟩
  · obtain ⟨s1, e, hb1, _⟩ := OnDataSent_summary MAX_PEERS mac status s ⟨hl, h0, hle⟩
    exact ⟨s1, e, hb1⟩
  · exact ⟨_, sendAll_eq data s.peerCount.toNat 0 { s with peerAddresses := s.table }
      (by show 0 + s.peerCount.toNat ≤ s.table.length; omega)⟩
  · intro calls registered
    obtain ⟨s1, e, hw⟩ := run_WF MAX_PEERS calls _ (initState_WF MAX_PEERS registered)
    exact ⟨s1, e, hw.1⟩

/-- C20 at the table `[A, B, C]`, evicting `A` (two slots are shifted). -/
theorem C20_indexing_in_bounds_witness :
    InBounds MAX_PEERS (stateOf MAX_PEERS [addrA, addrB, addrC]) ∧
    (∃ s1, OnDataSent addrA ESP_NOW_SEND_FAIL
        { stateOf MAX_PEERS [addrA, addrB, addrC] with
          peerAddresses := (stateOf MAX_PEERS [addrA, addrB, addrC]).table } = some s1 ∧
      0 ≤ s1.peerCount) ∧
    (∃ r s1, addPeerIfNew MAX_PEERS addrA true (stateOf MAX_PEERS [addrA, addrB, addrC]) =
      some (r, s1) ∧ InBounds MAX_PEERS s1) :=
  ⟨by decide,
    (C20_indexing_in_bounds (stateOf MAX_PEERS [addrA, addrB, addrC]) addrA true
      ESP_NOW_SEND_FAIL fullMessage (by decide)).2.2.2.2.1,
    (C20_indexing_in_bounds (stateOf MAX_PEERS [addrA, addrB, addrC]) addrA true
      ESP_NOW_SEND_FAIL fullMessage (by decide)).2.1⟩

end EspNowDemo
